import Mathlib

/-!
Shallow embedding of the zatel daemon's plugin-orchestration core
(`src/lib/yaml.rs`, `src/lib/error.rs`, `src/lib/connection.rs`,
`src/lib/ipc.rs`, `src/daemon/zateld.rs`) together with theorems that
settle the specification claims about it.

Modelling conventions:
* YAML documents travel through the Rust code as strings that are parsed
  with `serde_yaml::from_str` and re-serialized with `serde_yaml::to_string`.
  Here a document string is represented by its parse outcome (`Yaml`):
  either `invalid raw` (the string does not parse) or `parsed v` (it parses
  to the value `v`).  Re-serializing a mapping and re-parsing it yields the
  same value, which serde_yaml guarantees for `serde_yaml::Value`.
* `serde_yaml::Value` is modelled by the mutual inductive `Value`;
  scalar numbers are modelled by `Int` (no claim depends on the numeric
  tower), and mappings by `ValueMap`, an insertion-ordered association
  list exactly like serde_yaml's `Mapping` (`contains_key`, first-match
  lookup, insert-at-end).
* A Rust `format!`-built error string is modelled by an `ErrMsg`
  constructor carrying the interpolated data of that `format!` call, so
  "the error names the conflicting key and both values" is statable.
  Purely diagnostic payloads that no claim inspects are dropped.
* Fallible Rust functions returning `Result<T, ZatelError>` become
  `Except ZatelError T`; the stateful socket reads of `ipc.rs` become
  explicit state passing over an `IpcStream` (a byte list plus what the
  peer does at its end: clean EOF or an I/O error).
-/

namespace Zatel

mutual
/-- Model of `serde_yaml::Value` (scalars, sequences, mappings). -/
inductive Value where
  | null : Value
  | bool (b : Bool) : Value
  | num (n : Int) : Value
  | str (s : String) : Value
  | seq (xs : ValueSeq) : Value
  | map (kvs : ValueMap) : Value
  deriving DecidableEq, Repr

/-- Model of `serde_yaml::Sequence` (a list of values). -/
inductive ValueSeq where
  | nil : ValueSeq
  | cons (hd : Value) (tl : ValueSeq) : ValueSeq
  deriving DecidableEq, Repr

/-- Model of `serde_yaml::Mapping`: an insertion-ordered key/value list. -/
inductive ValueMap where
  | nil : ValueMap
  | cons (k : Value) (v : Value) (tl : ValueMap) : ValueMap
  deriving DecidableEq, Repr
end

mutual
/-- Structural size of a `Value`, the fuel measure for the equality
below. -/
def vSize : Value → Nat
  | .null => 1
  | .bool _ => 1
  | .num _ => 1
  | .str _ => 1
  | .seq xs => 1 + sSize xs
  | .map kvs => 1 + mSize kvs

/-- Structural size of a `ValueSeq`. -/
def sSize : ValueSeq → Nat
  | .nil => 0
  | .cons v tl => vSize v + sSize tl

/-- Structural size of a `ValueMap`. -/
def mSize : ValueMap → Nat
  | .nil => 0
  | .cons k v tl => vSize k + vSize v + mSize tl
end

/-- Model of `Mapping::len`. -/
def mLen : ValueMap → Nat
  | .nil => 0
  | .cons _ _ tl => 1 + mLen tl

mutual
/-- Fuel-indexed model of serde_yaml's `PartialEq` on `Value`.  For
mappings this is LinkedHashMap equality: equal `len()` and every
left-hand entry found by `get` in the right-hand map with an equal
value; entry ORDER is ignored.  Key lookup (`mGetF`) compares keys with
this same equality, exactly as serde's `Mapping::get`.  Any fuel at
least the combined structural size of the arguments gives the true
answer (`beqF_agree` below); the wrappers fix that fuel. -/
def vBeqF : Nat → Value → Value → Bool
  | 0, _, _ => false
  | fuel + 1, a, b =>
    match a, b with
    | .null, .null => true
    | .bool x, .bool y => x == y
    | .num x, .num y => x == y
    | .str x, .str y => x == y
    | .seq xs, .seq ys => sBeqF fuel xs ys
    | .map xs, .map ys => mLen xs == mLen ys && mSubF fuel xs ys
    | _, _ => false

/-- Fuel-indexed sequence equality (element-wise, order-sensitive). -/
def sBeqF : Nat → ValueSeq → ValueSeq → Bool
  | 0, _, _ => false
  | _ + 1, .nil, .nil => true
  | fuel + 1, .cons a as, .cons b bs => vBeqF fuel a b && sBeqF fuel as bs
  | _ + 1, _, _ => false

/-- Fuel-indexed model of `Mapping::get`: first entry whose key is
serde-equal to the query key. -/
def mGetF : Nat → ValueMap → Value → Option Value
  | 0, _, _ => Option.none
  | _ + 1, .nil, _ => Option.none
  | fuel + 1, .cons k' v' tl, k =>
    if vBeqF fuel k' k then some v' else mGetF fuel tl k

/-- Fuel-indexed one-sided map containment: every left entry is found
in the right map with an equal value. -/
def mSubF : Nat → ValueMap → ValueMap → Bool
  | 0, _, _ => false
  | _ + 1, .nil, _ => true
  | fuel + 1, .cons k v tl, b =>
    (match mGetF fuel b k with
     | some w => vBeqF fuel v w
     | Option.none => false) && mSubF fuel tl b
end

/-- Model of serde_yaml's `PartialEq::eq` on `Value` (`==` / the
negation of `!=` in the Rust sources): order-insensitive on mappings. -/
def yamlBeq (a b : Value) : Bool :=
  vBeqF (vSize a + vSize b) a b

/-- Model of serde_yaml's `PartialEq::eq` on sequences. -/
def yamlBeqS (xs ys : ValueSeq) : Bool :=
  sBeqF (sSize xs + sSize ys + 1) xs ys

/-- Model of the one-sided containment used by mapping equality. -/
def yamlSubM (xs ys : ValueMap) : Bool :=
  mSubF (mSize xs + mSize ys + 1) xs ys

/-- Model of `Mapping::get` / `Mapping::index` / `Mapping::contains_key`
(via `isSome`): first-match lookup under serde equality of keys. -/
def ValueMap.getE (m : ValueMap) (k : Value) : Option Value :=
  mGetF (mSize m + vSize k + 1) m k

/-- Model of `Mapping::insert` for a fresh key: append at the end,
which is what serde_yaml's insertion-ordered mapping does. -/
def ValueMap.insert : ValueMap → Value → Value → ValueMap
  | .nil, k, v => .cons k v .nil
  | .cons k' v' tl, k, v => .cons k' v' (tl.insert k v)

/-- The entries of a mapping as a Lean list, for specification purposes. -/
def ValueMap.toList : ValueMap → List (Value × Value)
  | .nil => []
  | .cons k v tl => (k, v) :: tl.toList

/-- Model of `Value::as_mapping`. -/
def Value.asMapping : Value → Option ValueMap
  | .map kvs => some kvs
  | _ => none

/-- A YAML document string, represented by its parse outcome. -/
inductive Yaml where
  | invalid (raw : String) : Yaml
  | parsed (v : Value) : Yaml
  deriving DecidableEq, Repr

/-- Model of `ErrorKind` from `src/lib/error.rs`. -/
inductive ErrorKind where
  | invalidArgument : ErrorKind
  | zatelBug : ErrorKind
  | pluginError : ErrorKind
  deriving DecidableEq, Repr

/-- Each constructor models one `format!` message built by the embedded
code, carrying the interpolated data that a claim may inspect. -/
inductive ErrMsg where
  /-- "Invalid format of YAML reply from plugin: {yml_str}, {e}" -/
  | invalidYamlFromPlugin (raw : String) : ErrMsg
  /-- "Duplicate key: {key} new: {value}, old: {old_value}" -/
  | duplicateKey (key newVal oldVal : Value) : ErrMsg
  /-- "WARN: {cur_obj} is not mapping" -/
  | notMapping (v : Value) : ErrMsg
  /-- "Self ZatelConnection has no name: {self}" -/
  | selfNoName : ErrMsg
  /-- "Self ZatelConnection has no uuid: {self}" -/
  | selfNoUuid : ErrMsg
  /-- "WARN: ZatelConnection to merge is holding different name: ..." -/
  | differentName (origin : String) (toMerge : Option String) : ErrMsg
  /-- "WARN: ZatelConnection to merge is holding different uuid: ..." -/
  | differentUuid (origin : String) (toMerge : Option String) : ErrMsg
  /-- "Invalid format of YAML: {e}" (validate_conf parse failure) -/
  | invalidYamlFormat : ErrMsg
  /-- "Invalid config, validated: {merged_reply}, desired: {conf}" -/
  | invalidConfig (validated desired : Value) : ErrMsg
  /-- "No plugin has saved desired config" -/
  | noPluginSaved : ErrMsg
  /-- "{data} does not holding string in data" (get_data_str) -/
  | noDataStr : ErrMsg
  /-- "Invalid IPC message: message size execeed the limit({limit})" -/
  | sizeExceedLimit (limit : Nat) : ErrMsg
  /-- "Failed to read message size: {e}" -/
  | readSizeFailed : ErrMsg
  /-- "Failed to read message to buffer with size {size}: {e}" -/
  | readBodyFailed : ErrMsg
  /-- "Invalid message recieved: {buffer}: {e}" -/
  | invalidRecvMessage : ErrMsg
  deriving DecidableEq, Repr

/-- Model of `ZatelError` from `src/lib/error.rs`. -/
structure ZatelError where
  kind : ErrorKind
  msg : ErrMsg
  deriving DecidableEq, Repr

/-- Model of `ZatelError::bug`. -/
def ZatelError.bug (m : ErrMsg) : ZatelError := ⟨.zatelBug, m⟩

/-- Model of `ZatelError::invalid_argument`. -/
def ZatelError.invalid_argument (m : ErrMsg) : ZatelError := ⟨.invalidArgument, m⟩

/-- Model of `ZatelError::plugin_error`. -/
def ZatelError.plugin_error (m : ErrMsg) : ZatelError := ⟨.pluginError, m⟩

/-- Inner loop of `merge_yaml_mappings` over the entries of one fragment
(`for (key, value) in cur.iter()`), threading the accumulated mapping.
Both the key lookup (`contains_key` / indexing) and the value comparison
`old_value != value` use serde_yaml's order-insensitive equality. -/
def mergeMapInto (full : ValueMap) : ValueMap → Except ZatelError ValueMap
  | .nil => .ok full
  | .cons k v tl =>
    match full.getE k with
    | some old =>
      if yamlBeq old v then mergeMapInto full tl
      else .error (ZatelError.plugin_error (.duplicateKey k v old))
    | Option.none => mergeMapInto (full.insert k v) tl

/-- The same loop, viewed on the flat entry list; `merge_yaml_mappings`
over mapping fragments equals this fold over the concatenation of their
entries (`mergeGo_eq_entries`). -/
def mergeEntries (full : ValueMap) : List (Value × Value) → Except ZatelError ValueMap
  | [] => .ok full
  | (k, v) :: tl =>
    match full.getE k with
    | some old =>
      if yamlBeq old v then mergeEntries full tl
      else .error (ZatelError.plugin_error (.duplicateKey k v old))
    | Option.none => mergeEntries (full.insert k v) tl

/-- Outer loop of `merge_yaml_mappings` over the fragment strings. -/
def mergeGo (full : ValueMap) : List Yaml → Except ZatelError ValueMap
  | [] => .ok full
  | y :: rest =>
    match y with
    | .invalid raw => .error (ZatelError.plugin_error (.invalidYamlFromPlugin raw))
    | .parsed v =>
      match v.asMapping with
      | some cur =>
        match mergeMapInto full cur with
        | .ok full' => mergeGo full' rest
        | .error e => .error e
      | none => .error (ZatelError.plugin_error (.notMapping v))

/-- Model of `merge_yaml_mappings` from `src/lib/yaml.rs`.  The function
returns the serialization of the merged mapping; here the returned string
is represented by the mapping itself (its parse).  The final
`serde_yaml::to_string` never fails on a `Mapping` (the code itself labels
that branch "This should never happen"), so it is embedded as success. -/
def merge_yaml_mappings (ymls : List Yaml) : Except ZatelError ValueMap :=
  mergeGo .nil ymls

/-- Model of `ZatelPluginCapacity` from `src/lib/plugin.rs`. -/
inductive ZatelPluginCapacity where
  | query : ZatelPluginCapacity
  | apply : ZatelPluginCapacity
  | config : ZatelPluginCapacity
  deriving DecidableEq, Repr

/-- Model of `ZatelPluginInfo` from `src/lib/plugin.rs`. -/
structure ZatelPluginInfo where
  name : String
  socket_path : String
  capacities : List ZatelPluginCapacity
  deriving DecidableEq, Repr

/-- Modelled from the spec: `src/lib/logging.rs` is absent from the
sources (only `lib.rs` re-exports `ZatelLogLevel`), so log levels are
modelled as an abstract four-level enum. -/
inductive ZatelLogLevel where
  | error : ZatelLogLevel
  | warn : ZatelLogLevel
  | info : ZatelLogLevel
  | debug : ZatelLogLevel
  deriving DecidableEq, Repr

/-- Modelled from the spec: `src/lib/logging.rs` is absent from the
sources; the spec (§3) only says a Message carries "an optional ordered
sequence of log entries", so an entry is modelled as a level plus a
message string. -/
structure ZatelLogEntry where
  level : ZatelLogLevel
  message : String
  deriving DecidableEq, Repr

/-- Model of `ZatelConnection` from `src/lib/connection.rs`; the `config`
document string is represented by its parse outcome. -/
structure ZatelConnection where
  uuid : Option String
  name : Option String
  config : Yaml
  deriving DecidableEq, Repr

/-- Model of `ZatelIpcData` from `src/lib/ipc.rs`.  Variants holding a
document/filter string hold its `Yaml` representation. -/
inductive ZatelIpcData where
  | error (e : ZatelError) : ZatelIpcData
  | queryPluginInfo : ZatelIpcData
  | queryPluginInfoReply (info : ZatelPluginInfo) : ZatelIpcData
  | queryIfaceInfo (s : Yaml) : ZatelIpcData
  | queryIfaceInfoReply (s : Yaml) : ZatelIpcData
  | validateConf (s : Yaml) : ZatelIpcData
  | validateConfReply (s : Yaml) : ZatelIpcData
  | saveConf (c : ZatelConnection) : ZatelIpcData
  | saveConfReply (c : ZatelConnection) : ZatelIpcData
  | querySavedConf (uuid : String) : ZatelIpcData
  | querySavedConfReply (c : ZatelConnection) : ZatelIpcData
  | querySavedConfAll : ZatelIpcData
  | querySavedConfAllReply (cs : List ZatelConnection) : ZatelIpcData
  | connectionClosed : ZatelIpcData
  | none : ZatelIpcData
  deriving DecidableEq, Repr

/-- Model of `ZatelIpcMessage` from `src/lib/ipc.rs`. -/
structure ZatelIpcMessage where
  data : ZatelIpcData
  log : Option (List ZatelLogEntry)
  deriving DecidableEq, Repr

/-- Model of `ZatelIpcMessage::new`. -/
def ZatelIpcMessage.new (data : ZatelIpcData) : ZatelIpcMessage :=
  ⟨data, Option.none⟩

/-- Model of `ZatelIpcMessage::from_result`. -/
def ZatelIpcMessage.from_result :
    Except ZatelError ZatelIpcMessage → ZatelIpcMessage
  | .ok m => m
  | .error e => ZatelIpcMessage.new (.error e)

/-- Model of `ZatelIpcMessage::get_data_str`: the variants whose payload
is a document/filter string yield it, anything else is InvalidArgument. -/
def ZatelIpcMessage.get_data_str (m : ZatelIpcMessage) : Except ZatelError Yaml :=
  match m.data with
  | .queryIfaceInfo s => .ok s
  | .queryIfaceInfoReply s => .ok s
  | .validateConf s => .ok s
  | .validateConfReply s => .ok s
  | _ => .error (ZatelError.invalid_argument .noDataStr)

/-- Model of `extract_strs_from_ipc_msg` from `src/daemon/zateld.rs`:
keep, in order, the data strings of the replies that carry one. -/
def extract_strs_from_ipc_msg (msgs : List ZatelIpcMessage) : List Yaml :=
  msgs.filterMap (fun m => m.get_data_str.toOption)

/-- Model of `handle_query` from `src/daemon/zateld.rs`.  The fan-out to
the Query-capability plugins is I/O; its collected replies are the
`replies` argument.  The merged reply string is represented by its parse,
the merged mapping. -/
def handle_query (replies : List ZatelIpcMessage) :
    Except ZatelError ZatelIpcMessage :=
  match merge_yaml_mappings (extract_strs_from_ipc_msg replies) with
  | .ok m =>
    .ok (ZatelIpcMessage.new (.queryIfaceInfoReply (.parsed (.map m))))
  | .error e => .error e

/-- Model of `validate_conf` from `src/daemon/zateld.rs`: parse the
desired document (InvalidArgument if unparseable), strict-merge the
Apply-capability fan-out replies (`replies`), re-parse the merged string
(which always succeeds on a serialized mapping) and require serde_yaml
equality (`!=` in the source, order-insensitive on mappings) with the
desired document. -/
def validate_conf (conf : Yaml) (replies : List ZatelIpcMessage) :
    Except ZatelError Unit :=
  match conf with
  | .invalid _ => .error (ZatelError.invalid_argument .invalidYamlFormat)
  | .parsed desire =>
    match merge_yaml_mappings (extract_strs_from_ipc_msg replies) with
    | .error e => .error e
    | .ok merged =>
      if yamlBeq (Value.map merged) desire then .ok ()
      else .error (ZatelError.invalid_argument (.invalidConfig (.map merged) desire))

/-- Model of `gen_connection_name` from `src/daemon/zateld.rs`. -/
def gen_connection_name (config : Yaml) : String :=
  match config with
  | .parsed v =>
    match v.asMapping with
    | some m =>
      match m.getE (.str "name") with
      | some (.str n) => n
      | _ => "unknown"
    | Option.none => "unknown"
  | .invalid _ => "unknown"

/-- The identity checks of `ZatelConnection::merge_from` for one reply
fragment: a fragment reporting a name or uuid different from the one the
daemon assigned is a PluginError. -/
def identityCheckOne (selfName selfUuid : String) (c : ZatelConnection) :
    Except ZatelError Unit :=
  match c.name with
  | some n =>
    if n ≠ selfName then
      .error (ZatelError.plugin_error (.differentName selfName c.name))
    else
      match c.uuid with
      | some u =>
        if u ≠ selfUuid then
          .error (ZatelError.plugin_error (.differentUuid selfUuid c.uuid))
        else .ok ()
      | Option.none => .ok ()
  | Option.none =>
    match c.uuid with
    | some u =>
      if u ≠ selfUuid then
        .error (ZatelError.plugin_error (.differentUuid selfUuid c.uuid))
      else .ok ()
    | Option.none => .ok ()

/-- The loop of `ZatelConnection::merge_from` over the reply fragments. -/
def identityCheck (selfName selfUuid : String) :
    List ZatelConnection → Except ZatelError Unit
  | [] => .ok ()
  | c :: rest =>
    match identityCheckOne selfName selfUuid c with
    | .ok () => identityCheck selfName selfUuid rest
    | .error e => .error e

/-- Model of `ZatelConnection::merge_from` from `src/lib/connection.rs`:
require self name and uuid (a missing one is a Bug), check every
fragment's identity against them, then strict-merge self's config with
every fragment's config. -/
def ZatelConnection.merge_from (self : ZatelConnection)
    (ztl_cons : List ZatelConnection) : Except ZatelError ZatelConnection :=
  match self.name with
  | Option.none => .error (ZatelError.bug .selfNoName)
  | some selfName =>
    match self.uuid with
    | Option.none => .error (ZatelError.bug .selfNoUuid)
    | some selfUuid =>
      match identityCheck selfName selfUuid ztl_cons with
      | .error e => .error e
      | .ok () =>
        match merge_yaml_mappings (self.config :: ztl_cons.map (·.config)) with
        | .error e => .error e
        | .ok m => .ok { self with config := .parsed (.map m) }

/-- The uuid/name assignment step of `handle_save_conf`: generate a uuid
(the `gen_uuid` argument models `Uuid::new_v4()`, external randomness) if
the client did not supply one, and derive a name from the config if the
client did not supply one. -/
def assign_identity (connection : ZatelConnection) (gen_uuid : String) :
    ZatelConnection :=
  { connection with
    uuid := match connection.uuid with
      | Option.none => some gen_uuid
      | some u => some u
    name := match connection.name with
      | Option.none => some (gen_connection_name connection.config)
      | some n => some n }

deriving instance DecidableEq for Except

/-- Result of `handle_save_conf` together with the `SaveConf` request the
daemon fanned out to the Config-capability plugins (`Option.none` when the
fan-out was never reached). -/
structure SaveConfOutcome where
  result : Except ZatelError ZatelIpcMessage
  sent : Option ZatelConnection
  deriving DecidableEq, Repr

/-- The loop of `handle_save_conf` that keeps the `SaveConfReply`
payloads of the Config fan-out replies, in order. -/
def save_reply_fragments (saveReplies : List ZatelIpcMessage) :
    List ZatelConnection :=
  saveReplies.filterMap (fun m =>
    match m.data with
    | .saveConfReply c => some c
    | _ => Option.none)

/-- A reply fragment that reports a uuid or a name different from the
identity the daemon just assigned. -/
def reports_different_identity (assigned c : ZatelConnection) : Prop :=
  (∃ u, c.uuid = some u ∧ c.uuid ≠ assigned.uuid) ∨
  (∃ n, c.name = some n ∧ c.name ≠ assigned.name)

/-- Model of `handle_save_conf` from `src/daemon/zateld.rs`.  The two
fan-outs are I/O; their collected replies are the `validateReplies` and
`saveReplies` arguments (the latter is only consulted after a `SaveConf`
was actually sent).  `gen_uuid` models the freshly generated UUID. -/
def handle_save_conf (connection : ZatelConnection) (gen_uuid : String)
    (validateReplies saveReplies : List ZatelIpcMessage) : SaveConfOutcome :=
  match validate_conf connection.config validateReplies with
  | .error e => ⟨.error e, Option.none⟩
  | .ok () =>
    let ztl_con := assign_identity connection gen_uuid
    let reply_ztl_cons := save_reply_fragments saveReplies
    if reply_ztl_cons = [] then
      ⟨.error (ZatelError.plugin_error .noPluginSaved), some ztl_con⟩
    else
      match ztl_con.merge_from reply_ztl_cons with
      | .error e => ⟨.error e, some ztl_con⟩
      | .ok merged =>
        ⟨.ok (ZatelIpcMessage.new (.saveConfReply merged)), some ztl_con⟩

/-!
The transport codec of `src/lib/ipc.rs`.  The reference implementation
serializes a `ZatelIpcMessage` with serde_yaml; the spec (§4.1) states
that "any serialization that round-trips the Message shape is
conformant".  The embedding therefore uses a concrete tagged encoding of
the Message shape into a list of byte slots (`Nat`), with a matching
decoder; the 4-byte big-endian length prefix written by `write_u32` and
the read loop of `ipc_recv`/`ipc_recv_safe` are embedded byte-exactly.
-/

/-- Length-prefixed string encoding (one slot per character). -/
def encString (s : String) : List Nat :=
  s.data.length :: s.data.map Char.toNat

/-- Decoder matching `encString`. -/
def decString : List Nat → Option (String × List Nat)
  | [] => Option.none
  | len :: r =>
    if len ≤ r.length then
      some (⟨(r.take len).map Char.ofNat⟩, r.drop len)
    else Option.none

/-- Option encoding: tag slot then the payload. -/
def encOptWith (f : α → List Nat) : Option α → List Nat
  | Option.none => [0]
  | some a => 1 :: f a

/-- Decoder matching `encOptWith`. -/
def decOptWith (g : List Nat → Option (α × List Nat)) :
    List Nat → Option (Option α × List Nat)
  | 0 :: r => some (Option.none, r)
  | 1 :: r =>
    match g r with
    | some (a, r') => some (some a, r')
    | Option.none => Option.none
  | _ => Option.none

/-- Count-guided list decoding. -/
def decListCount (g : List Nat → Option (α × List Nat)) :
    Nat → List Nat → Option (List α × List Nat)
  | 0, bs => some ([], bs)
  | n + 1, bs =>
    match g bs with
    | some (a, r) =>
      match decListCount g n r with
      | some (as, r') => some (a :: as, r')
      | Option.none => Option.none
    | Option.none => Option.none

/-- Length-prefixed list encoding. -/
def encListWith (f : α → List Nat) (xs : List α) : List Nat :=
  xs.length :: (xs.map f).flatten

/-- Decoder matching `encListWith`. -/
def decListWith (g : List Nat → Option (α × List Nat)) :
    List Nat → Option (List α × List Nat)
  | [] => Option.none
  | n :: r => decListCount g n r

/-- Integer encoding: a sign tag and a magnitude slot. -/
def encInt : Int → List Nat
  | .ofNat n => [0, n]
  | .negSucc n => [1, n]

/-- Decoder matching `encInt`. -/
def decInt : List Nat → Option (Int × List Nat)
  | 0 :: n :: r => some (.ofNat n, r)
  | 1 :: n :: r => some (.negSucc n, r)
  | _ => Option.none

mutual
/-- Tagged encoding of a `Value`. -/
def encValue : Value → List Nat
  | .null => [0]
  | .bool b => [1, if b then 1 else 0]
  | .num n => 2 :: encInt n
  | .str s => 3 :: encString s
  | .seq xs => 4 :: encValueSeq xs
  | .map kvs => 5 :: encValueMap kvs

/-- Tagged encoding of a `ValueSeq`. -/
def encValueSeq : ValueSeq → List Nat
  | .nil => [0]
  | .cons v tl => 1 :: (encValue v ++ encValueSeq tl)

/-- Tagged encoding of a `ValueMap`. -/
def encValueMap : ValueMap → List Nat
  | .nil => [0]
  | .cons k v tl => 1 :: (encValue k ++ encValue v ++ encValueMap tl)
end

mutual
/-- Fuel-indexed decoder matching `encValue`; any fuel at least the
length of the encoded value suffices. -/
def decValue : Nat → List Nat → Option (Value × List Nat)
  | 0, _ => Option.none
  | fuel + 1, bs =>
    match bs with
    | 0 :: r => some (.null, r)
    | 1 :: b :: r => some (.bool (b == 1), r)
    | 2 :: r =>
      match decInt r with
      | some (n, r') => some (.num n, r')
      | Option.none => Option.none
    | 3 :: r =>
      match decString r with
      | some (s, r') => some (.str s, r')
      | Option.none => Option.none
    | 4 :: r =>
      match decValueSeq fuel r with
      | some (xs, r') => some (.seq xs, r')
      | Option.none => Option.none
    | 5 :: r =>
      match decValueMap fuel r with
      | some (kvs, r') => some (.map kvs, r')
      | Option.none => Option.none
    | _ => Option.none

/-- Fuel-indexed decoder matching `encValueSeq`. -/
def decValueSeq : Nat → List Nat → Option (ValueSeq × List Nat)
  | 0, _ => Option.none
  | fuel + 1, bs =>
    match bs with
    | 0 :: r => some (.nil, r)
    | 1 :: r =>
      match decValue fuel r with
      | some (v, r1) =>
        match decValueSeq fuel r1 with
        | some (tl, r2) => some (.cons v tl, r2)
        | Option.none => Option.none
      | Option.none => Option.none
    | _ => Option.none

/-- Fuel-indexed decoder matching `encValueMap`. -/
def decValueMap : Nat → List Nat → Option (ValueMap × List Nat)
  | 0, _ => Option.none
  | fuel + 1, bs =>
    match bs with
    | 0 :: r => some (.nil, r)
    | 1 :: r =>
      match decValue fuel r with
      | some (k, r1) =>
        match decValue fuel r1 with
        | some (v, r2) =>
          match decValueMap fuel r2 with
          | some (tl, r3) => some (.cons k v tl, r3)
          | Option.none => Option.none
        | Option.none => Option.none
      | Option.none => Option.none
    | _ => Option.none
end

/-- Encoding of a `Yaml` document string. -/
def encYaml : Yaml → List Nat
  | .invalid raw => 0 :: encString raw
  | .parsed v => 1 :: encValue v

/-- Decoder matching `encYaml`; the fuel for the value decoder is the
remaining input length, which always suffices. -/
def decYaml : List Nat → Option (Yaml × List Nat)
  | 0 :: r =>
    match decString r with
    | some (s, r') => some (.invalid s, r')
    | Option.none => Option.none
  | 1 :: r =>
    match decValue r.length r with
    | some (v, r') => some (.parsed v, r')
    | Option.none => Option.none
  | _ => Option.none

/-- Encoding of an `ErrorKind`. -/
def encErrorKind : ErrorKind → List Nat
  | .invalidArgument => [0]
  | .zatelBug => [1]
  | .pluginError => [2]

/-- Decoder matching `encErrorKind`. -/
def decErrorKind : List Nat → Option (ErrorKind × List Nat)
  | 0 :: r => some (.invalidArgument, r)
  | 1 :: r => some (.zatelBug, r)
  | 2 :: r => some (.pluginError, r)
  | _ => Option.none

/-- Encoding of an `ErrMsg`. -/
def encErrMsg : ErrMsg → List Nat
  | .invalidYamlFromPlugin raw => 0 :: encString raw
  | .duplicateKey k nv ov => 1 :: (encValue k ++ encValue nv ++ encValue ov)
  | .notMapping v => 2 :: encValue v
  | .selfNoName => [3]
  | .selfNoUuid => [4]
  | .differentName o t => 5 :: (encString o ++ encOptWith encString t)
  | .differentUuid o t => 6 :: (encString o ++ encOptWith encString t)
  | .invalidYamlFormat => [7]
  | .invalidConfig va de => 8 :: (encValue va ++ encValue de)
  | .noPluginSaved => [9]
  | .noDataStr => [10]
  | .sizeExceedLimit n => [11, n]
  | .readSizeFailed => [12]
  | .readBodyFailed => [13]
  | .invalidRecvMessage => [14]

/-- Decoder matching `encErrMsg`. -/
def decErrMsg : List Nat → Option (ErrMsg × List Nat)
  | 0 :: r =>
    match decString r with
    | some (s, r') => some (.invalidYamlFromPlugin s, r')
    | Option.none => Option.none
  | 1 :: r =>
    match decValue r.length r with
    | some (k, r1) =>
      match decValue r1.length r1 with
      | some (nv, r2) =>
        match decValue r2.length r2 with
        | some (ov, r3) => some (.duplicateKey k nv ov, r3)
        | Option.none => Option.none
      | Option.none => Option.none
    | Option.none => Option.none
  | 2 :: r =>
    match decValue r.length r with
    | some (v, r') => some (.notMapping v, r')
    | Option.none => Option.none
  | 3 :: r => some (.selfNoName, r)
  | 4 :: r => some (.selfNoUuid, r)
  | 5 :: r =>
    match decString r with
    | some (o, r1) =>
      match decOptWith decString r1 with
      | some (t, r2) => some (.differentName o t, r2)
      | Option.none => Option.none
    | Option.none => Option.none
  | 6 :: r =>
    match decString r with
    | some (o, r1) =>
      match decOptWith decString r1 with
      | some (t, r2) => some (.differentUuid o t, r2)
      | Option.none => Option.none
    | Option.none => Option.none
  | 7 :: r => some (.invalidYamlFormat, r)
  | 8 :: r =>
    match decValue r.length r with
    | some (va, r1) =>
      match decValue r1.length r1 with
      | some (de, r2) => some (.invalidConfig va de, r2)
      | Option.none => Option.none
    | Option.none => Option.none
  | 9 :: r => some (.noPluginSaved, r)
  | 10 :: r => some (.noDataStr, r)
  | 11 :: n :: r => some (.sizeExceedLimit n, r)
  | 12 :: r => some (.readSizeFailed, r)
  | 13 :: r => some (.readBodyFailed, r)
  | 14 :: r => some (.invalidRecvMessage, r)
  | _ => Option.none

/-- Encoding of a `ZatelError`. -/
def encZatelError (e : ZatelError) : List Nat :=
  encErrorKind e.kind ++ encErrMsg e.msg

/-- Decoder matching `encZatelError`. -/
def decZatelError (bs : List Nat) : Option (ZatelError × List Nat) :=
  match decErrorKind bs with
  | some (k, r) =>
    match decErrMsg r with
    | some (m, r') => some (⟨k, m⟩, r')
    | Option.none => Option.none
  | Option.none => Option.none

/-- Encoding of a `ZatelPluginCapacity`. -/
def encCapacity : ZatelPluginCapacity → List Nat
  | .query => [0]
  | .apply => [1]
  | .config => [2]

/-- Decoder matching `encCapacity`. -/
def decCapacity : List Nat → Option (ZatelPluginCapacity × List Nat)
  | 0 :: r => some (.query, r)
  | 1 :: r => some (.apply, r)
  | 2 :: r => some (.config, r)
  | _ => Option.none

/-- Encoding of a `ZatelPluginInfo`. -/
def encPluginInfo (p : ZatelPluginInfo) : List Nat :=
  encString p.name ++ encString p.socket_path ++ encListWith encCapacity p.capacities

/-- Decoder matching `encPluginInfo`. -/
def decPluginInfo (bs : List Nat) : Option (ZatelPluginInfo × List Nat) :=
  match decString bs with
  | some (n, r1) =>
    match decString r1 with
    | some (sp, r2) =>
      match decListWith decCapacity r2 with
      | some (cs, r3) => some (⟨n, sp, cs⟩, r3)
      | Option.none => Option.none
    | Option.none => Option.none
  | Option.none => Option.none

/-- Encoding of a `ZatelLogLevel`. -/
def encLogLevel : ZatelLogLevel → List Nat
  | .error => [0]
  | .warn => [1]
  | .info => [2]
  | .debug => [3]

/-- Decoder matching `encLogLevel`. -/
def decLogLevel : List Nat → Option (ZatelLogLevel × List Nat)
  | 0 :: r => some (.error, r)
  | 1 :: r => some (.warn, r)
  | 2 :: r => some (.info, r)
  | 3 :: r => some (.debug, r)
  | _ => Option.none

/-- Encoding of a `ZatelLogEntry`. -/
def encLogEntry (e : ZatelLogEntry) : List Nat :=
  encLogLevel e.level ++ encString e.message

/-- Decoder matching `encLogEntry`. -/
def decLogEntry (bs : List Nat) : Option (ZatelLogEntry × List Nat) :=
  match decLogLevel bs with
  | some (l, r) =>
    match decString r with
    | some (m, r') => some (⟨l, m⟩, r')
    | Option.none => Option.none
  | Option.none => Option.none

/-- Encoding of a `ZatelConnection`. -/
def encConnection (c : ZatelConnection) : List Nat :=
  encOptWith encString c.uuid ++ encOptWith encString c.name ++ encYaml c.config

/-- Decoder matching `encConnection`. -/
def decConnection (bs : List Nat) : Option (ZatelConnection × List Nat) :=
  match decOptWith decString bs with
  | some (u, r1) =>
    match decOptWith decString r1 with
    | some (n, r2) =>
      match decYaml r2 with
      | some (cf, r3) => some (⟨u, n, cf⟩, r3)
      | Option.none => Option.none
    | Option.none => Option.none
  | Option.none => Option.none

/-- Tagged encoding of a `ZatelIpcData`. -/
def encIpcData : ZatelIpcData → List Nat
  | .error e => 0 :: encZatelError e
  | .queryPluginInfo => [1]
  | .queryPluginInfoReply info => 2 :: encPluginInfo info
  | .queryIfaceInfo s => 3 :: encYaml s
  | .queryIfaceInfoReply s => 4 :: encYaml s
  | .validateConf s => 5 :: encYaml s
  | .validateConfReply s => 6 :: encYaml s
  | .saveConf c => 7 :: encConnection c
  | .saveConfReply c => 8 :: encConnection c
  | .querySavedConf u => 9 :: encString u
  | .querySavedConfReply c => 10 :: encConnection c
  | .querySavedConfAll => [11]
  | .querySavedConfAllReply cs => 12 :: encListWith encConnection cs
  | .connectionClosed => [13]
  | .none => [14]

/-- Decoder matching `encIpcData`. -/
def decIpcData : List Nat → Option (ZatelIpcData × List Nat)
  | 0 :: r =>
    match decZatelError r with
    | some (e, r') => some (.error e, r')
    | Option.none => Option.none
  | 1 :: r => some (.queryPluginInfo, r)
  | 2 :: r =>
    match decPluginInfo r with
    | some (i, r') => some (.queryPluginInfoReply i, r')
    | Option.none => Option.none
  | 3 :: r =>
    match decYaml r with
    | some (s, r') => some (.queryIfaceInfo s, r')
    | Option.none => Option.none
  | 4 :: r =>
    match decYaml r with
    | some (s, r') => some (.queryIfaceInfoReply s, r')
    | Option.none => Option.none
  | 5 :: r =>
    match decYaml r with
    | some (s, r') => some (.validateConf s, r')
    | Option.none => Option.none
  | 6 :: r =>
    match decYaml r with
    | some (s, r') => some (.validateConfReply s, r')
    | Option.none => Option.none
  | 7 :: r =>
    match decConnection r with
    | some (c, r') => some (.saveConf c, r')
    | Option.none => Option.none
  | 8 :: r =>
    match decConnection r with
    | some (c, r') => some (.saveConfReply c, r')
    | Option.none => Option.none
  | 9 :: r =>
    match decString r with
    | some (u, r') => some (.querySavedConf u, r')
    | Option.none => Option.none
  | 10 :: r =>
    match decConnection r with
    | some (c, r') => some (.querySavedConfReply c, r')
    | Option.none => Option.none
  | 11 :: r => some (.querySavedConfAll, r)
  | 12 :: r =>
    match decListWith decConnection r with
    | some (cs, r') => some (.querySavedConfAllReply cs, r')
    | Option.none => Option.none
  | 13 :: r => some (.connectionClosed, r)
  | 14 :: r => some (.none, r)
  | _ => Option.none

/-- Serialization of a whole `ZatelIpcMessage`, the model of
`serde_yaml::to_string(&message)` in `ipc_send`. -/
def encIpcMessage (m : ZatelIpcMessage) : List Nat :=
  encIpcData m.data ++ encOptWith (encListWith encLogEntry) m.log

/-- Streaming decoder matching `encIpcMessage`. -/
def decIpcMessage (bs : List Nat) : Option (ZatelIpcMessage × List Nat) :=
  match decIpcData bs with
  | some (d, r) =>
    match decOptWith (decListWith decLogEntry) r with
    | some (l, r') => some (⟨d, l⟩, r')
    | Option.none => Option.none
  | Option.none => Option.none

/-- Deserialization of a received buffer, the model of
`serde_yaml::from_slice::<ZatelIpcMessage>(&buffer)` in
`ipc_recv_get_data`: the whole buffer must be consumed. -/
def decode_message (buf : List Nat) : Option ZatelIpcMessage :=
  match decIpcMessage buf with
  | some (m, []) => some m
  | _ => Option.none

/-- What the peer's end of the stream does once the buffered bytes are
exhausted: a clean close (reads report `UnexpectedEof`) or some other
I/O failure (reads report that error). -/
inductive StreamEnd where
  | eof : StreamEnd
  | ioErr (code : Nat) : StreamEnd
  deriving DecidableEq, Repr

/-- A readable socket: the bytes still to be delivered, then `fin`. -/
structure IpcStream where
  bytes : List Nat
  fin : StreamEnd
  deriving DecidableEq, Repr

/-- Model of `std::io::ErrorKind` as far as the embedded code inspects
it: `UnexpectedEof` versus everything else. -/
inductive IoErr where
  | unexpectedEof : IoErr
  | other (code : Nat) : IoErr
  deriving DecidableEq, Repr

/-- An exact read of `n` bytes (`read_u32` / `read_exact`): succeeds when
the stream still holds `n` bytes, otherwise reports `UnexpectedEof` on a
cleanly closed stream and the underlying error otherwise. -/
def readBytes (s : IpcStream) (n : Nat) : Except IoErr (List Nat × IpcStream) :=
  if n ≤ s.bytes.length then
    .ok (s.bytes.take n, ⟨s.bytes.drop n, s.fin⟩)
  else
    match s.fin with
    | .eof => .error .unexpectedEof
    | .ioErr code => .error (.other code)

/-- Big-endian 4-byte encoding of a (already truncated) u32 value, the
model of tokio's `write_u32`. -/
def u32be (n : Nat) : List Nat :=
  [n / 16777216 % 256, n / 65536 % 256, n / 256 % 256, n % 256]

/-- Big-endian reassembly of 4 byte slots, the model of `read_u32`. -/
def u32beVal (b0 b1 b2 b3 : Nat) : Nat :=
  b0 * 16777216 + b1 * 65536 + b2 * 256 + b3

/-- The safety ceiling of `ipc_recv_safe`: `1024 * 1024 * 10` bytes. -/
def IPC_SAFE_SIZE : Nat := 1024 * 1024 * 10

/-- Model of `ipc_send` from `src/lib/ipc.rs`: the byte sequence written
to the stream, a 4-byte big-endian length prefix (the length cast to u32)
followed by the serialized message.  Serialization itself cannot fail in
the model, and write failures are outside the claims. -/
def ipc_send (message : ZatelIpcMessage) : List Nat :=
  u32be ((encIpcMessage message).length % 4294967296) ++ encIpcMessage message

/-- Model of `ipc_recv_get_size`: read a u32; a read failing with
`UnexpectedEof` yields size 0 ("connection closed"), any other read
failure is a Bug error. -/
def ipc_recv_get_size (s : IpcStream) : Except ZatelError (Nat × IpcStream) :=
  match readBytes s 4 with
  | .error .unexpectedEof => .ok (0, s)
  | .error (.other _) => .error (ZatelError.bug .readSizeFailed)
  | .ok (bs, s') =>
    match bs with
    | [b0, b1, b2, b3] => .ok (u32beVal b0 b1 b2 b3, s')
    | _ => .ok (0, s)

/-- Model of `ipc_recv_get_data`: read exactly `message_size` bytes
(`UnexpectedEof` is surfaced as a `ConnectionClosed` message, any other
failure as a Bug error), deserialize them, and surface an Error-variant
payload as a failed Result. -/
def ipc_recv_get_data (s : IpcStream) (message_size : Nat) :
    Except ZatelError (ZatelIpcMessage × IpcStream) :=
  match readBytes s message_size with
  | .error .unexpectedEof => .ok (ZatelIpcMessage.new .connectionClosed, s)
  | .error (.other _) => .error (ZatelError.bug .readBodyFailed)
  | .ok (buf, s') =>
    match decode_message buf with
    | Option.none => .error (ZatelError.bug .invalidRecvMessage)
    | some m =>
      match m.data with
      | .error e => .error e
      | _ => .ok (m, s')

/-- Model of `ipc_recv` from `src/lib/ipc.rs`. -/
def ipc_recv (s : IpcStream) : Except ZatelError (ZatelIpcMessage × IpcStream) :=
  match ipc_recv_get_size s with
  | .error e => .error e
  | .ok (message_size, s') =>
    if message_size = 0 then
      .ok (ZatelIpcMessage.new .connectionClosed, s')
    else
      ipc_recv_get_data s' message_size

/-- Model of `ipc_recv_safe` from `src/lib/ipc.rs`: as `ipc_recv`, but an
advertised size above `IPC_SAFE_SIZE` is rejected as InvalidArgument
before the body is read. -/
def ipc_recv_safe (s : IpcStream) : Except ZatelError (ZatelIpcMessage × IpcStream) :=
  match ipc_recv_get_size s with
  | .error e => .error e
  | .ok (message_size, s') =>
    if message_size = 0 then
      .ok (ZatelIpcMessage.new .connectionClosed, s')
    else if IPC_SAFE_SIZE < message_size then
      .error (ZatelError.invalid_argument (.sizeExceedLimit IPC_SAFE_SIZE))
    else
      ipc_recv_get_data s' message_size

/-!
Specification-side vocabulary used by the claim statements.
-/

/-- The fragment strings of a list of mapping fragments. -/
def fragsToYamls (frags : List ValueMap) : List Yaml :=
  frags.map (fun m => .parsed (.map m))

/-- All top-level entries contributed by a list of mapping fragments, in
processing order. -/
def entriesOf (frags : List ValueMap) : List (Value × Value) :=
  (frags.map ValueMap.toList).flatten

/-- No entry of `l` has a key serde-equal to `k`. -/
def keyFree (l : List (Value × Value)) (k : Value) : Prop :=
  ∀ p ∈ l, yamlBeq p.1 k = false

/-- Some top-level key appears twice with serde-different values: the
FIRST occurrence of the key maps it to `v₁` and a later occurrence maps
it to `v₂` with `v₁ != v₂` under serde equality.  The first occurrence
is pinned because the merge loop only ever compares a later value
against the first-seen one.  The side condition `yamlBeq k k = true`
holds for every value serde_yaml can construct (its equality is
reflexive there); it is explicit because the raw model type also
contains multimap-like values no parse can produce, on which the
literal LinkedHashMap comparison is not reflexive. -/
def hasConflict (l : List (Value × Value)) : Prop :=
  ∃ l₁ k v₁ l₂ v₂ l₃,
    l = l₁ ++ (k, v₁) :: l₂ ++ (k, v₂) :: l₃ ∧ keyFree l₁ k ∧
    yamlBeq k k = true ∧ yamlBeq v₁ v₂ = false

/-- Every ordered pair of entries with serde-equal keys carries
serde-equal values (keys pairwise disjoint, or duplicated only with
equal values). -/
def coherent (l : List (Value × Value)) : Prop :=
  ∀ l₁ k₁ v₁ l₂ k₂ v₂ l₃,
    l = l₁ ++ (k₁, v₁) :: l₂ ++ (k₂, v₂) :: l₃ →
    yamlBeq k₁ k₂ = true → yamlBeq v₁ v₂ = true

/-!
Theorems.  Helper lemmas first, then one named theorem per claim
(with its witness or counterexample).
-/

/-- Structural induction for `ValueMap` alone (the auto-generated
recursor of the mutual family has several motives, which the `induction`
tactic does not take). -/
@[induction_eliminator]
theorem ValueMap.inductionOn {motive : ValueMap → Prop} (nil : motive .nil)
    (cons : ∀ k v tl, motive tl → motive (.cons k v tl)) : ∀ m, motive m
  | .nil => nil
  | .cons k v tl => cons k v tl (ValueMap.inductionOn nil cons tl)

theorem ValueMap.toList_insert (m : ValueMap) (k v : Value) :
    (m.insert k v).toList = m.toList ++ [(k, v)] := by
  induction m with
  | nil => simp [ValueMap.insert, ValueMap.toList]
  | cons k' v' tl ih => simp [ValueMap.insert, ValueMap.toList, ih]

theorem vSize_pos (v : Value) : 1 ≤ vSize v := by
  cases v <;> simp [vSize]

theorem mGetF_size : ∀ (m : ValueMap) (f : Nat) (k w : Value),
    mGetF f m k = some w → vSize w ≤ mSize m := by
  intro m
  induction m with
  | nil =>
    intro f k w h
    cases f <;> simp [mGetF] at h
  | cons k' v' tl ih =>
    intro f k w h
    cases f with
    | zero => simp [mGetF] at h
    | succ f' =>
      simp only [mGetF] at h
      cases hb : vBeqF f' k' k
      · rw [hb] at h
        rw [if_neg (by simp)] at h
        have := ih f' k w h
        simp only [mSize]
        omega
      · rw [hb] at h
        rw [if_pos rfl] at h
        cases h
        simp only [mSize]
        omega

/-- The four fueled functions are fuel-indifferent once the fuel covers
the sizes of the arguments; proved by one induction on a common fuel
bound `n`. -/
theorem beqF_agree : ∀ n : Nat,
    (∀ f g a b, vSize a + vSize b ≤ f → vSize a + vSize b ≤ g →
      f ≤ n → g ≤ n → vBeqF f a b = vBeqF g a b) ∧
    (∀ f g xs ys, sSize xs + sSize ys + 1 ≤ f → sSize xs + sSize ys + 1 ≤ g →
      f ≤ n → g ≤ n → sBeqF f xs ys = sBeqF g xs ys) ∧
    (∀ f g m k, mSize m + vSize k + 1 ≤ f → mSize m + vSize k + 1 ≤ g →
      f ≤ n → g ≤ n → mGetF f m k = mGetF g m k) ∧
    (∀ f g xs ys, mSize xs + mSize ys + 1 ≤ f → mSize xs + mSize ys + 1 ≤ g →
      f ≤ n → g ≤ n → mSubF f xs ys = mSubF g xs ys) := by
  intro n
  induction n with
  | zero =>
    refine ⟨?_, ?_, ?_, ?_⟩
    · intro f g a b hf hg hfn hgn
      exfalso
      have := vSize_pos a
      omega
    · intro f g xs ys hf hg hfn hgn; exfalso; omega
    · intro f g m k hf hg hfn hgn; exfalso; omega
    · intro f g xs ys hf hg hfn hgn; exfalso; omega
  | succ n ih =>
    obtain ⟨ihv, ihs, ihget, ihsub⟩ := ih
    refine ⟨?_, ?_, ?_, ?_⟩
    · intro f g a b hf hg hfn hgn
      have hpa := vSize_pos a
      have hpb := vSize_pos b
      cases f with
      | zero => exfalso; omega
      | succ f' =>
        cases g with
        | zero => exfalso; omega
        | succ g' =>
          cases a with
          | null => cases b <;> simp only [vBeqF]
          | bool x => cases b <;> simp only [vBeqF]
          | num x => cases b <;> simp only [vBeqF]
          | str x => cases b <;> simp only [vBeqF]
          | seq xs =>
            cases b with
            | seq ys =>
              simp only [vBeqF]
              exact ihs f' g' xs ys (by simp only [vSize] at hf; omega)
                (by simp only [vSize] at hg; omega) (by omega) (by omega)
            | null => simp only [vBeqF]
            | bool y => simp only [vBeqF]
            | num y => simp only [vBeqF]
            | str y => simp only [vBeqF]
            | map ys => simp only [vBeqF]
          | map xs =>
            cases b with
            | map ys =>
              simp only [vBeqF]
              rw [ihsub f' g' xs ys (by simp only [vSize] at hf; omega)
                (by simp only [vSize] at hg; omega) (by omega) (by omega)]
            | null => simp only [vBeqF]
            | bool y => simp only [vBeqF]
            | num y => simp only [vBeqF]
            | str y => simp only [vBeqF]
            | seq ys => simp only [vBeqF]
    · intro f g xs ys hf hg hfn hgn
      cases f with
      | zero => exfalso; omega
      | succ f' =>
        cases g with
        | zero => exfalso; omega
        | succ g' =>
          cases xs with
          | nil => cases ys <;> simp only [sBeqF]
          | cons a as =>
            cases ys with
            | nil => simp only [sBeqF]
            | cons b bs =>
              simp only [sBeqF]
              have hpa := vSize_pos a
              have hpb := vSize_pos b
              simp only [sSize] at hf hg
              rw [ihv f' g' a b (by omega) (by omega) (by omega) (by omega),
                ihs f' g' as bs (by omega) (by omega) (by omega) (by omega)]
    · intro f g m k hf hg hfn hgn
      cases f with
      | zero => exfalso; omega
      | succ f' =>
        cases g with
        | zero => exfalso; omega
        | succ g' =>
          cases m with
          | nil => simp only [mGetF]
          | cons k' v' tl =>
            simp only [mGetF]
            have hpk := vSize_pos k'
            have hpv := vSize_pos v'
            simp only [mSize] at hf hg
            rw [ihv f' g' k' k (by omega) (by omega) (by omega) (by omega),
              ihget f' g' tl k (by omega) (by omega) (by omega) (by omega)]
    · intro f g xs ys hf hg hfn hgn
      cases f with
      | zero => exfalso; omega
      | succ f' =>
        cases g with
        | zero => exfalso; omega
        | succ g' =>
          cases xs with
          | nil => simp only [mSubF]
          | cons k v tl =>
            simp only [mSubF]
            have hpk := vSize_pos k
            have hpv := vSize_pos v
            simp only [mSize] at hf hg
            rw [ihget f' g' ys k (by omega) (by omega) (by omega) (by omega)]
            cases hw : mGetF g' ys k with
            | none =>
              dsimp only
              rw [ihsub f' g' tl ys (by omega) (by omega) (by omega) (by omega)]
            | some w =>
              dsimp only
              have hwsz := mGetF_size ys g' k w hw
              rw [ihv f' g' v w (by omega) (by omega) (by omega) (by omega),
                ihsub f' g' tl ys (by omega) (by omega) (by omega) (by omega)]

theorem vBeqF_eq_yamlBeq {f : Nat} {a b : Value} (h : vSize a + vSize b ≤ f) :
    vBeqF f a b = yamlBeq a b :=
  (beqF_agree (max f (vSize a + vSize b))).1 f (vSize a + vSize b) a b h
    (le_refl _) (le_max_left _ _) (le_max_right _ _)

theorem mGetF_eq_getE {f : Nat} {m : ValueMap} {k : Value}
    (h : mSize m + vSize k + 1 ≤ f) : mGetF f m k = m.getE k :=
  (beqF_agree (max f (mSize m + vSize k + 1))).2.2.1 f (mSize m + vSize k + 1)
    m k h (le_refl _) (le_max_left _ _) (le_max_right _ _)

theorem ValueMap.getE_nil (k : Value) :
    (ValueMap.nil).getE k = Option.none := rfl

theorem ValueMap.getE_cons (k' v' : Value) (tl : ValueMap) (k : Value) :
    (ValueMap.cons k' v' tl).getE k =
      (if yamlBeq k' k then some v' else tl.getE k) := by
  have h1 : vBeqF (mSize (ValueMap.cons k' v' tl) + vSize k) k' k =
      yamlBeq k' k :=
    vBeqF_eq_yamlBeq (by simp only [mSize]; omega)
  have h2 : mGetF (mSize (ValueMap.cons k' v' tl) + vSize k) tl k = tl.getE k :=
    mGetF_eq_getE (by
      simp only [mSize]
      have := vSize_pos k'
      have := vSize_pos v'
      omega)
  show mGetF (mSize (ValueMap.cons k' v' tl) + vSize k + 1)
      (ValueMap.cons k' v' tl) k = _
  simp only [mGetF]
  rw [h1, h2]

theorem ValueMap.getE_insert (m : ValueMap) (k v key : Value) :
    (m.insert k v).getE key =
      (match m.getE key with
       | some w => some w
       | Option.none => if yamlBeq k key then some v else Option.none) := by
  induction m with
  | nil =>
    show (ValueMap.cons k v .nil).getE key = _
    rw [ValueMap.getE_cons, ValueMap.getE_nil]
  | cons k' v' tl ih =>
    show (ValueMap.cons k' v' (tl.insert k v)).getE key = _
    rw [ValueMap.getE_cons, ValueMap.getE_cons, ih]
    cases hb : yamlBeq k' key
    · simp
    · rw [if_pos rfl, if_pos rfl]

theorem ValueMap.getE_mem {m : ValueMap} {k w : Value} (h : m.getE k = some w) :
    ∃ k₀, (k₀, w) ∈ m.toList ∧ yamlBeq k₀ k = true := by
  induction m with
  | nil => rw [ValueMap.getE_nil] at h; cases h
  | cons k' v' tl ih =>
    rw [ValueMap.getE_cons] at h
    cases hb : yamlBeq k' k
    · rw [hb] at h
      rw [if_neg (by simp)] at h
      obtain ⟨k₀, hmem, hk₀⟩ := ih h
      exact ⟨k₀, List.mem_cons_of_mem _ hmem, hk₀⟩
    · rw [hb] at h
      rw [if_pos rfl] at h
      cases h
      exact ⟨k', List.mem_cons_self _ _, hb⟩

theorem getE_none_of_keyFree {m : ValueMap} {L : List (Value × Value)}
    {k : Value} (hfree : keyFree L k) (hsub : ∀ p ∈ m.toList, p ∈ L) :
    m.getE k = Option.none := by
  induction m with
  | nil => exact ValueMap.getE_nil k
  | cons k' v' tl ih =>
    rw [ValueMap.getE_cons]
    have hk' : yamlBeq k' k = false :=
      hfree (k', v') (hsub (k', v') (List.mem_cons_self _ _))
    rw [hk']
    rw [if_neg (by simp)]
    exact ih (fun p hp => hsub p (List.mem_cons_of_mem _ hp))

theorem mergeMapInto_eq_entries (cur : ValueMap) : ∀ full : ValueMap,
    mergeMapInto full cur = mergeEntries full cur.toList := by
  induction cur with
  | nil => intro full; rfl
  | cons k v tl ih =>
    intro full
    simp only [mergeMapInto, ValueMap.toList, mergeEntries]
    cases hg : full.getE k with
    | some old => dsimp only; rw [ih]
    | none => dsimp only; rw [ih]

theorem mergeEntries_append (a : List (Value × Value)) :
    ∀ (full : ValueMap) (b : List (Value × Value)),
      mergeEntries full (a ++ b) =
        (match mergeEntries full a with
         | .ok m => mergeEntries m b
         | .error e => .error e) := by
  induction a with
  | nil => intro full b; rfl
  | cons q tl ih =>
    intro full b
    obtain ⟨k, v⟩ := q
    simp only [List.cons_append, mergeEntries]
    cases hg : full.getE k with
    | some old =>
      dsimp only
      cases hb : yamlBeq old v
      · rw [if_neg (by simp), if_neg (by simp)]
      · rw [if_pos rfl, if_pos rfl]
        exact ih full b
    | none =>
      dsimp only
      exact ih (full.insert k v) b

theorem mergeGo_eq_entries (frags : List ValueMap) : ∀ full : ValueMap,
    mergeGo full (fragsToYamls frags) = mergeEntries full (entriesOf frags) := by
  induction frags with
  | nil => intro full; rfl
  | cons f rest ih =>
    intro full
    have hent : entriesOf (f :: rest) = f.toList ++ entriesOf rest := by
      simp [entriesOf]
    rw [hent, mergeEntries_append, ← mergeMapInto_eq_entries]
    simp only [fragsToYamls, List.map_cons, mergeGo, Value.asMapping]
    cases hmm : mergeMapInto full f with
    | ok full' =>
      dsimp only
      exact ih full'
    | error e => rfl

theorem merge_yaml_mappings_eq_entries (frags : List ValueMap) :
    merge_yaml_mappings (fragsToYamls frags) =
      mergeEntries .nil (entriesOf frags) :=
  mergeGo_eq_entries frags .nil

theorem mergeEntries_sub {full m : ValueMap} {l : List (Value × Value)}
    (h : mergeEntries full l = .ok m) :
    ∀ p ∈ m.toList, p ∈ full.toList ∨ p ∈ l := by
  induction l generalizing full with
  | nil =>
    cases h
    exact fun p hp => Or.inl hp
  | cons q tl ih =>
    obtain ⟨k, v⟩ := q
    simp only [mergeEntries] at h
    cases hg : full.getE k with
    | some old =>
      rw [hg] at h
      dsimp only at h
      cases hb : yamlBeq old v
      · rw [hb] at h
        rw [if_neg (by simp)] at h
        cases h
      · rw [hb] at h
        rw [if_pos rfl] at h
        intro p hp
        rcases ih h p hp with h1 | h1
        · exact Or.inl h1
        · exact Or.inr (List.mem_cons_of_mem _ h1)
    | none =>
      rw [hg] at h
      dsimp only at h
      intro p hp
      rcases ih h p hp with h1 | h1
      · rw [ValueMap.toList_insert] at h1
        rcases List.mem_append.mp h1 with h2 | h2
        · exact Or.inl h2
        · rw [List.mem_singleton.mp h2]
          exact Or.inr (List.mem_cons_self _ _)
      · exact Or.inr (List.mem_cons_of_mem _ h1)

theorem mergeEntries_mono {full m : ValueMap} {l : List (Value × Value)}
    (h : mergeEntries full l = .ok m) :
    ∀ p ∈ full.toList, p ∈ m.toList := by
  induction l generalizing full with
  | nil =>
    cases h
    exact fun p hp => hp
  | cons q tl ih =>
    obtain ⟨k, v⟩ := q
    simp only [mergeEntries] at h
    cases hg : full.getE k with
    | some old =>
      rw [hg] at h
      dsimp only at h
      cases hb : yamlBeq old v
      · rw [hb] at h
        rw [if_neg (by simp)] at h
        cases h
      · rw [hb] at h
        rw [if_pos rfl] at h
        exact ih h
    | none =>
      rw [hg] at h
      dsimp only at h
      intro p hp
      refine ih h p ?_
      rw [ValueMap.toList_insert]
      exact List.mem_append_left _ hp

theorem mergeEntries_get_stable {full m : ValueMap} {l : List (Value × Value)}
    (h : mergeEntries full l = .ok m) :
    ∀ k w, full.getE k = some w → m.getE k = some w := by
  induction l generalizing full with
  | nil =>
    cases h
    exact fun _ _ hw => hw
  | cons q tl ih =>
    obtain ⟨kq, v⟩ := q
    simp only [mergeEntries] at h
    cases hg : full.getE kq with
    | some old =>
      rw [hg] at h
      dsimp only at h
      cases hb : yamlBeq old v
      · rw [hb] at h
        rw [if_neg (by simp)] at h
        cases h
      · rw [hb] at h
        rw [if_pos rfl] at h
        exact ih h
    | none =>
      rw [hg] at h
      dsimp only at h
      intro k w hw
      exact ih h k w (by rw [ValueMap.getE_insert, hw])

theorem mergeEntries_err {full : ValueMap} {l : List (Value × Value)}
    {e : ZatelError} (h : mergeEntries full l = .error e) :
    ∃ kq nv k₀ ov, e = ZatelError.plugin_error (.duplicateKey kq nv ov) ∧
      yamlBeq ov nv = false ∧ (kq, nv) ∈ l ∧
      ((k₀, ov) ∈ full.toList ∨ (k₀, ov) ∈ l) ∧ yamlBeq k₀ kq = true := by
  induction l generalizing full with
  | nil => cases h
  | cons q tl ih =>
    obtain ⟨k, v⟩ := q
    simp only [mergeEntries] at h
    cases hg : full.getE k with
    | some old =>
      rw [hg] at h
      dsimp only at h
      cases hb : yamlBeq old v
      · rw [hb] at h
        rw [if_neg (by simp)] at h
        cases h
        obtain ⟨k₀, hmem, hk₀⟩ := ValueMap.getE_mem hg
        exact ⟨k, v, k₀, old, rfl, hb, List.mem_cons_self _ _, Or.inl hmem, hk₀⟩
      · rw [hb] at h
        rw [if_pos rfl] at h
        obtain ⟨kq, nv, k₀, ov, he, hne, hmem, hov, hk⟩ := ih h
        refine ⟨kq, nv, k₀, ov, he, hne, List.mem_cons_of_mem _ hmem, ?_, hk⟩
        rcases hov with h1 | h1
        · exact Or.inl h1
        · exact Or.inr (List.mem_cons_of_mem _ h1)
    | none =>
      rw [hg] at h
      dsimp only at h
      obtain ⟨kq, nv, k₀, ov, he, hne, hmem, hov, hk⟩ := ih h
      refine ⟨kq, nv, k₀, ov, he, hne, List.mem_cons_of_mem _ hmem, ?_, hk⟩
      rcases hov with h1 | h1
      · rw [ValueMap.toList_insert] at h1
        rcases List.mem_append.mp h1 with h2 | h2
        · exact Or.inl h2
        · rw [List.mem_singleton.mp h2]
          exact Or.inr (List.mem_cons_self _ _)
      · exact Or.inr (List.mem_cons_of_mem _ h1)

/-- A first occurrence of a key (no earlier entry has a serde-equal key)
survives into any successful merge result. -/
theorem mergeEntries_first_mem (l₁ : List (Value × Value)) :
    ∀ (full : ValueMap) {m : ValueMap} {l₂ : List (Value × Value)}
      {k v : Value},
      mergeEntries full (l₁ ++ (k, v) :: l₂) = .ok m →
      keyFree l₁ k → yamlBeq k k = true → full.getE k = Option.none →
      (k, v) ∈ m.toList := by
  induction l₁ with
  | nil =>
    intro full m l₂ k v h hfree hkk hnone
    simp only [List.nil_append, mergeEntries] at h
    rw [hnone] at h
    dsimp only at h
    refine mergeEntries_mono h _ ?_
    rw [ValueMap.toList_insert]
    exact List.mem_append_right _ (List.mem_cons_self _ _)
  | cons q tl ih =>
    intro full m l₂ k v h hfree hkk hnone
    obtain ⟨kp, vp⟩ := q
    have hkp : yamlBeq kp k = false := hfree (kp, vp) (List.mem_cons_self _ _)
    have hfree' : keyFree tl k := fun p hp => hfree p (List.mem_cons_of_mem _ hp)
    simp only [List.cons_append, mergeEntries] at h
    cases hg : full.getE kp with
    | some old =>
      rw [hg] at h
      dsimp only at h
      cases hb : yamlBeq old vp
      · rw [hb] at h
        rw [if_neg (by simp)] at h
        cases h
      · rw [hb] at h
        rw [if_pos rfl] at h
        exact ih full h hfree' hkk hnone
    | none =>
      rw [hg] at h
      dsimp only at h
      refine ih (full.insert kp vp) h hfree' hkk ?_
      rw [ValueMap.getE_insert, hnone]
      simp [hkp]

/-- A coherent entry list (every ordered pair of entries with serde-equal
keys has serde-equal values) merges successfully.  `P` accumulates the
entries already folded into `full`. -/
theorem mergeEntries_ok_of_coherent (l : List (Value × Value)) :
    ∀ (P : List (Value × Value)) (full : ValueMap),
      (∀ p ∈ full.toList, p ∈ P) → coherent (P ++ l) →
      ∃ m, mergeEntries full l = .ok m := by
  induction l with
  | nil =>
    intro P full hsub hco
    exact ⟨full, rfl⟩
  | cons q tl ih =>
    intro P full hsub hco
    obtain ⟨k, v⟩ := q
    have hco' : coherent ((P ++ [(k, v)]) ++ tl) := by
      have heq : (P ++ [(k, v)]) ++ tl = P ++ (k, v) :: tl := by simp
      rw [heq]
      exact hco
    simp only [mergeEntries]
    cases hg : full.getE k with
    | some old =>
      dsimp only
      obtain ⟨k₀, hmem, hk₀⟩ := ValueMap.getE_mem hg
      obtain ⟨P₁, P₂, hP⟩ := List.append_of_mem (hsub _ hmem)
      have hb : yamlBeq old v = true := by
        refine hco P₁ k₀ old P₂ k v tl ?_ hk₀
        rw [hP]
      rw [hb]
      rw [if_pos rfl]
      exact ih (P ++ [(k, v)]) full
        (fun p hp => List.mem_append_left _ (hsub p hp)) hco'
    | none =>
      dsimp only
      refine ih (P ++ [(k, v)]) (full.insert k v) ?_ hco'
      intro p hp
      rw [ValueMap.toList_insert] at hp
      rcases List.mem_append.mp hp with h1 | h1
      · exact List.mem_append_left _ (hsub p h1)
      · rw [List.mem_singleton.mp h1]
        exact List.mem_append_right _ (List.mem_cons_self _ _)

/-- A conflicting entry list (some key's first occurrence and a later
occurrence carry serde-different values) makes the merge from the empty
accumulator fail with a `duplicateKey` PluginError naming a conflicting
key and both of its values. -/
theorem mergeEntries_conflict {l : List (Value × Value)}
    (hc : hasConflict l) :
    ∃ kq nv k₀ ov, yamlBeq ov nv = false ∧ (kq, nv) ∈ l ∧ (k₀, ov) ∈ l ∧
      yamlBeq k₀ kq = true ∧
      mergeEntries .nil l =
        .error (ZatelError.plugin_error (.duplicateKey kq nv ov)) := by
  obtain ⟨l₁, k, v₁, l₂, v₂, l₃, hl, hfree, hkk, hne⟩ := hc
  subst hl
  have hstep : ∀ (m : ValueMap) (tl : List (Value × Value)) (kk vv : Value),
      mergeEntries m ((kk, vv) :: tl) =
        (match m.getE kk with
         | some old =>
           if yamlBeq old vv then mergeEntries m tl
           else .error (ZatelError.plugin_error (.duplicateKey kk vv old))
         | Option.none => mergeEntries (m.insert kk vv) tl) :=
    fun _ _ _ _ => rfl
  have hlift1 : ∀ p : Value × Value, p ∈ l₁ →
      p ∈ (l₁ ++ (k, v₁) :: l₂) ++ (k, v₂) :: l₃ := fun p hp =>
    List.mem_append_left _ (List.mem_append_left _ hp)
  have hlift2 : (k, v₁) ∈ (l₁ ++ (k, v₁) :: l₂) ++ (k, v₂) :: l₃ :=
    List.mem_append_left _ (List.mem_append_right _ (List.mem_cons_self _ _))
  have hliftm : ∀ p : Value × Value, p ∈ l₂ →
      p ∈ (l₁ ++ (k, v₁) :: l₂) ++ (k, v₂) :: l₃ := fun p hp =>
    List.mem_append_left _
      (List.mem_append_right _ (List.mem_cons_of_mem _ hp))
  have hlift3 : (k, v₂) ∈ (l₁ ++ (k, v₁) :: l₂) ++ (k, v₂) :: l₃ :=
    List.mem_append_right _ (List.mem_cons_self _ _)
  rw [mergeEntries_append, mergeEntries_append]
  cases h₁ : mergeEntries .nil l₁ with
  | error e =>
    obtain ⟨kq, nv, k₀, ov, he, hne', hmem, hov, hk⟩ := mergeEntries_err h₁
    subst he
    refine ⟨kq, nv, k₀, ov, hne', hlift1 _ hmem, ?_, hk, rfl⟩
    rcases hov with h | h
    · simp [ValueMap.toList] at h
    · exact hlift1 _ h
  | ok m₁ =>
    dsimp only
    have hsub₁ : ∀ p ∈ m₁.toList, p ∈ l₁ := by
      intro p hp
      rcases mergeEntries_sub h₁ p hp with h | h
      · simp [ValueMap.toList] at h
      · exact h
    have hnone : m₁.getE k = Option.none := getE_none_of_keyFree hfree hsub₁
    rw [hstep, hnone]
    dsimp only
    cases h₂ : mergeEntries (m₁.insert k v₁) l₂ with
    | error e =>
      obtain ⟨kq, nv, k₀, ov, he, hne', hmem, hov, hk⟩ := mergeEntries_err h₂
      subst he
      refine ⟨kq, nv, k₀, ov, hne', hliftm _ hmem, ?_, hk, rfl⟩
      rcases hov with h | h
      · rw [ValueMap.toList_insert] at h
        rcases List.mem_append.mp h with h3 | h3
        · exact hlift1 _ (hsub₁ _ h3)
        · rw [List.mem_singleton.mp h3]
          exact hlift2
      · exact hliftm _ h
    | ok m₃ =>
      dsimp only
      have hget₃ : m₃.getE k = some v₁ := by
        refine mergeEntries_get_stable h₂ _ _ ?_
        rw [ValueMap.getE_insert, hnone]
        simp [hkk]
      rw [hstep, hget₃]
      dsimp only
      rw [hne]
      rw [if_neg (by simp)]
      exact ⟨k, v₂, k, v₁, hne, hlift3, hlift2, hkk, rfl⟩

/-- The strict merge of mapping fragments fails on a conflict among the
concatenated top-level entries, with a `duplicateKey` PluginError naming
a conflicting key and both of its values. -/
theorem merge_err_of_conflict {frags : List ValueMap}
    (hc : hasConflict (entriesOf frags)) :
    ∃ kq nv k₀ ov, yamlBeq ov nv = false ∧
      (kq, nv) ∈ entriesOf frags ∧ (k₀, ov) ∈ entriesOf frags ∧
      yamlBeq k₀ kq = true ∧
      merge_yaml_mappings (fragsToYamls frags) =
        .error (ZatelError.plugin_error (.duplicateKey kq nv ov)) := by
  obtain ⟨kq, nv, k₀, ov, hne, h1, h2, hk, herr⟩ := mergeEntries_conflict hc
  refine ⟨kq, nv, k₀, ov, hne, h1, h2, hk, ?_⟩
  rw [merge_yaml_mappings_eq_entries]
  exact herr

/-- The strict merge of coherent mapping fragments succeeds; the result's
entries all come from the fragments, and every first occurrence of a key
is kept. -/
theorem merge_ok_of_coherent {frags : List ValueMap}
    (hc : coherent (entriesOf frags)) :
    ∃ m, merge_yaml_mappings (fragsToYamls frags) = .ok m ∧
      (∀ p ∈ m.toList, p ∈ entriesOf frags) ∧
      (∀ l₁ k v l₂, entriesOf frags = l₁ ++ (k, v) :: l₂ →
        keyFree l₁ k → yamlBeq k k = true → (k, v) ∈ m.toList) := by
  obtain ⟨m, hok⟩ := mergeEntries_ok_of_coherent (entriesOf frags) [] .nil
    (fun p hp => by simp [ValueMap.toList] at hp) hc
  refine ⟨m, ?_, ?_, ?_⟩
  · rw [merge_yaml_mappings_eq_entries]
    exact hok
  · intro p hp
    rcases mergeEntries_sub hok p hp with h | h
    · simp [ValueMap.toList] at h
    · exact h
  · intro l₁ k v l₂ hdec hfree hkk
    rw [hdec] at hok
    exact mergeEntries_first_mem l₁ .nil hok hfree hkk rfl

theorem merge_fails_nonmapping {ymls : List Yaml}
    (h : ∃ y ∈ ymls, ∀ m, y ≠ .parsed (.map m)) :
    ∃ e, merge_yaml_mappings ymls = .error e := by
  suffices H : ∀ full, (∃ y ∈ ymls, ∀ m, y ≠ .parsed (.map m)) →
      ∃ e, mergeGo full ymls = .error e from H .nil h
  clear h
  induction ymls with
  | nil => intro full hh; simp at hh
  | cons y rest ih =>
    intro full hh
    obtain ⟨w, hw, hnm⟩ := hh
    cases y with
    | invalid raw => exact ⟨_, rfl⟩
    | parsed v =>
      cases v with
      | map cur =>
        rcases List.mem_cons.mp hw with hwy | hwr
        · exact absurd hwy (hnm cur)
        · simp only [mergeGo, Value.asMapping]
          cases hmm : mergeMapInto full cur with
          | error e => exact ⟨e, rfl⟩
          | ok full' => exact ih full' ⟨w, hwr, hnm⟩
      | null => exact ⟨_, rfl⟩
      | bool b => exact ⟨_, rfl⟩
      | num n => exact ⟨_, rfl⟩
      | str s => exact ⟨_, rfl⟩
      | seq xs => exact ⟨_, rfl⟩

/-- C1 (counterexample): the interface-query aggregation is NOT lenient.
Two Query fan-out fragments that give the key `eth0` different values
make `handle_query` fail with a PluginError instead of keeping the
first-seen value. -/
theorem handle_query_conflict_cex :
    handle_query
        [ZatelIpcMessage.new (.queryIfaceInfoReply
           (.parsed (.map (.cons (.str "eth0") (.num 1) .nil)))),
         ZatelIpcMessage.new (.queryIfaceInfoReply
           (.parsed (.map (.cons (.str "eth0") (.num 2) .nil))))]
      = .error (ZatelError.plugin_error
          (.duplicateKey (.str "eth0") (.num 2) (.num 1))) := by
  decide

/-- C1 (amended): the Query handler aggregates the fan-out fragments
with the strict merge (`merge_yaml_mappings`, the only merge in the
code): whenever some top-level key appears in the fragments with two
serde-different values (under serde_yaml's order-insensitive equality,
the comparison the code performs), `handle_query` fails with a
PluginError naming a conflicting key and both of its values — it never
succeeds by keeping the first-seen value. -/
theorem handle_query_conflict_fails (replies : List ZatelIpcMessage)
    (frags : List ValueMap)
    (hf : extract_strs_from_ipc_msg replies = fragsToYamls frags)
    (hc : hasConflict (entriesOf frags)) :
    ∃ kq nv k₀ ov, yamlBeq ov nv = false ∧
      (kq, nv) ∈ entriesOf frags ∧ (k₀, ov) ∈ entriesOf frags ∧
      yamlBeq k₀ kq = true ∧
      handle_query replies =
        .error (ZatelError.plugin_error (.duplicateKey kq nv ov)) := by
  obtain ⟨kq, nv, k₀, ov, hne, h1, h2, hk, hm⟩ := merge_err_of_conflict hc
  exact ⟨kq, nv, k₀, ov, hne, h1, h2, hk, by simp [handle_query, hf, hm]⟩

/-- Witness for the amended C1 theorem at a concrete conflicting input. -/
theorem handle_query_conflict_fails_witness :
    ∃ kq nv k₀ ov, yamlBeq ov nv = false ∧
      (kq, nv) ∈ entriesOf [.cons (.str "eth0") (.num 1) .nil,
                            .cons (.str "eth0") (.num 2) .nil] ∧
      (k₀, ov) ∈ entriesOf [.cons (.str "eth0") (.num 1) .nil,
                            .cons (.str "eth0") (.num 2) .nil] ∧
      yamlBeq k₀ kq = true ∧
      handle_query
          [ZatelIpcMessage.new (.queryIfaceInfoReply
             (.parsed (.map (.cons (.str "eth0") (.num 1) .nil)))),
           ZatelIpcMessage.new (.queryIfaceInfoReply
             (.parsed (.map (.cons (.str "eth0") (.num 2) .nil))))]
        = .error (ZatelError.plugin_error (.duplicateKey kq nv ov)) :=
  handle_query_conflict_fails _ _ (by decide)
    ⟨[], .str "eth0", .num 1, [], .num 2, [], by decide,
     fun p hp => absurd hp (List.not_mem_nil p), by decide, by decide⟩

/-- C2: the strict merge (a) fails on any key conflict (serde-different
values under a serde-equal key, the comparison the code performs) with a
PluginError naming a conflicting key and both of its values, (b) fails
when some fragment does not parse as a top-level mapping, and (c) on
coherent fragments (keys pairwise serde-disjoint, or duplicated only
with serde-equal values) succeeds with the union of the top-level keys:
every first occurrence of a key is kept and nothing outside the
fragments' entries appears. -/
theorem strict_merge_spec (frags : List ValueMap) (ymls : List Yaml) :
    (hasConflict (entriesOf frags) →
      ∃ kq nv k₀ ov, yamlBeq ov nv = false ∧
        (kq, nv) ∈ entriesOf frags ∧ (k₀, ov) ∈ entriesOf frags ∧
        yamlBeq k₀ kq = true ∧
        merge_yaml_mappings (fragsToYamls frags) =
          .error (ZatelError.plugin_error (.duplicateKey kq nv ov))) ∧
    ((∃ y ∈ ymls, ∀ m, y ≠ .parsed (.map m)) →
      ∃ e, merge_yaml_mappings ymls = .error e) ∧
    (coherent (entriesOf frags) →
      ∃ m, merge_yaml_mappings (fragsToYamls frags) = .ok m ∧
        (∀ p ∈ m.toList, p ∈ entriesOf frags) ∧
        (∀ l₁ k v l₂, entriesOf frags = l₁ ++ (k, v) :: l₂ →
          keyFree l₁ k → yamlBeq k k = true → (k, v) ∈ m.toList)) :=
  ⟨fun h => merge_err_of_conflict h,
   fun h => merge_fails_nonmapping h,
   fun h => merge_ok_of_coherent h⟩

/-- Witness for the C2 theorem: each conjunct applied at a concrete
input discharging its hypothesis. -/
theorem strict_merge_spec_witness :
    (∃ kq nv k₀ ov, yamlBeq ov nv = false ∧
      (kq, nv) ∈ entriesOf [.cons (.str "a") (.num 1) .nil,
                            .cons (.str "a") (.num 2) .nil] ∧
      (k₀, ov) ∈ entriesOf [.cons (.str "a") (.num 1) .nil,
                            .cons (.str "a") (.num 2) .nil] ∧
      yamlBeq k₀ kq = true ∧
      merge_yaml_mappings (fragsToYamls [.cons (.str "a") (.num 1) .nil,
                                         .cons (.str "a") (.num 2) .nil]) =
        .error (ZatelError.plugin_error (.duplicateKey kq nv ov))) ∧
    (∃ e, merge_yaml_mappings [.parsed .null] = .error e) ∧
    (∃ m, merge_yaml_mappings (fragsToYamls [.cons (.str "a") (.num 1) .nil]) =
        .ok m ∧
      (∀ p ∈ m.toList, p ∈ entriesOf [.cons (.str "a") (.num 1) .nil]) ∧
      (∀ l₁ k v l₂,
        entriesOf [.cons (.str "a") (.num 1) .nil] = l₁ ++ (k, v) :: l₂ →
        keyFree l₁ k → yamlBeq k k = true → (k, v) ∈ m.toList)) :=
  ⟨(strict_merge_spec [.cons (.str "a") (.num 1) .nil,
      .cons (.str "a") (.num 2) .nil] []).1
      ⟨[], .str "a", .num 1, [], .num 2, [], by decide,
       fun p hp => absurd hp (List.not_mem_nil p), by decide, by decide⟩,
   (strict_merge_spec [] [.parsed .null]).2.1 ⟨.parsed .null, by simp, by simp⟩,
   (strict_merge_spec [.cons (.str "a") (.num 1) .nil] []).2.2 (by
      intro l₁ k₁ v₁ l₂ k₂ v₂ l₃ heq hk
      exfalso
      have hlen := congrArg List.length heq
      simp [entriesOf, ValueMap.toList] at hlen
      omega)⟩

theorem assign_identity_uuid (c : ZatelConnection) (g : String) :
    (assign_identity c g).uuid = some (c.uuid.getD g) := by
  cases h : c.uuid <;> simp [assign_identity, h]

theorem assign_identity_name (c : ZatelConnection) (g : String) :
    (assign_identity c g).name =
      some (c.name.getD (gen_connection_name c.config)) := by
  cases h : c.name <;> simp [assign_identity, h]

theorem identityCheckOne_err_kind {sn su : String} {c : ZatelConnection}
    {e : ZatelError} (h : identityCheckOne sn su c = .error e) :
    e.kind = .pluginError := by
  unfold identityCheckOne at h
  cases hn : c.name with
  | none =>
    rw [hn] at h
    dsimp only at h
    cases hu : c.uuid with
    | none => rw [hu] at h; cases h
    | some u =>
      rw [hu] at h
      dsimp only at h
      by_cases hus : u = su
      · simp [hus] at h
      · simp only [ne_eq, hus, not_false_eq_true, if_true] at h
        cases h
        rfl
  | some n =>
    rw [hn] at h
    dsimp only at h
    by_cases hns : n = sn
    · simp only [ne_eq, hns, not_true_eq_false, if_false] at h
      cases hu : c.uuid with
      | none => rw [hu] at h; cases h
      | some u =>
        rw [hu] at h
        dsimp only at h
        by_cases hus : u = su
        · simp [hus] at h
        · simp only [ne_eq, hus, not_false_eq_true, if_true] at h
          cases h
          rfl
    · simp only [ne_eq, hns, not_false_eq_true, if_true] at h
      cases h
      rfl

theorem identityCheckOne_mismatch {sn su : String} {c : ZatelConnection}
    (h : (∃ u, c.uuid = some u ∧ u ≠ su) ∨ (∃ n, c.name = some n ∧ n ≠ sn)) :
    identityCheckOne sn su c ≠ .ok () := by
  unfold identityCheckOne
  cases hn : c.name with
  | none =>
    dsimp only
    rcases h with ⟨u, hu, hus⟩ | ⟨n, hn', _⟩
    · rw [hu]
      simp [hus]
    · rw [hn'] at hn; cases hn
  | some n =>
    dsimp only
    by_cases hns : n = sn
    · simp only [ne_eq, hns, not_true_eq_false, if_false]
      rcases h with ⟨u, hu, hus⟩ | ⟨n', hn', hns'⟩
      · rw [hu]
        simp [hus]
      · rw [hn'] at hn
        cases hn
        exact absurd hns hns'
    · simp [hns]

theorem identityCheck_err_kind {sn su : String} {cons : List ZatelConnection}
    {e : ZatelError} (h : identityCheck sn su cons = .error e) :
    e.kind = .pluginError := by
  induction cons with
  | nil => cases h
  | cons c rest ih =>
    unfold identityCheck at h
    cases hc : identityCheckOne sn su c with
    | ok u => rw [hc] at h; exact ih h
    | error e' =>
      rw [hc] at h
      cases h
      exact identityCheckOne_err_kind hc

theorem identityCheck_mismatch {sn su : String} {cons : List ZatelConnection}
    (h : ∃ c ∈ cons, (∃ u, c.uuid = some u ∧ u ≠ su) ∨
      (∃ n, c.name = some n ∧ n ≠ sn)) :
    identityCheck sn su cons ≠ .ok () := by
  induction cons with
  | nil => simp at h
  | cons c rest ih =>
    obtain ⟨w, hw, hmis⟩ := h
    unfold identityCheck
    cases hc : identityCheckOne sn su c with
    | ok u =>
      rcases List.mem_cons.mp hw with rfl | hwr
      · exact absurd (by cases u; exact hc) (identityCheckOne_mismatch hmis)
      · exact ih ⟨w, hwr, hmis⟩
    | error e' => simp

theorem merge_from_ok_identity {self r : ZatelConnection}
    {cons : List ZatelConnection} (h : self.merge_from cons = .ok r) :
    r.uuid = self.uuid ∧ r.name = self.name := by
  unfold ZatelConnection.merge_from at h
  cases hn : self.name with
  | none => rw [hn] at h; cases h
  | some sn =>
    rw [hn] at h
    dsimp only at h
    cases hu : self.uuid with
    | none => rw [hu] at h; cases h
    | some su =>
      rw [hu] at h
      dsimp only at h
      cases hic : identityCheck sn su cons with
      | error e => rw [hic] at h; cases h
      | ok u =>
        cases u
        rw [hic] at h
        dsimp only at h
        cases hm : merge_yaml_mappings (self.config :: cons.map (·.config)) with
        | error e => rw [hm] at h; cases h
        | ok mm =>
          rw [hm] at h
          cases h
          simp [hu, hn]

theorem merge_from_err_of_mismatch {self : ZatelConnection} {sn su : String}
    {cons : List ZatelConnection} (hn : self.name = some sn)
    (hu : self.uuid = some su)
    (h : ∃ c ∈ cons, reports_different_identity self c) :
    ∃ e, self.merge_from cons = .error e ∧ e.kind = .pluginError := by
  have hmis : ∃ c ∈ cons, (∃ u, c.uuid = some u ∧ u ≠ su) ∨
      (∃ n, c.name = some n ∧ n ≠ sn) := by
    obtain ⟨c, hc, hd⟩ := h
    refine ⟨c, hc, ?_⟩
    rcases hd with ⟨u, hcu, hne⟩ | ⟨n, hcn, hne⟩
    · refine Or.inl ⟨u, hcu, ?_⟩
      intro hEq
      exact hne (by rw [hcu, hu, hEq])
    · refine Or.inr ⟨n, hcn, ?_⟩
      intro hEq
      exact hne (by rw [hcn, hn, hEq])
  cases hic : identityCheck sn su cons with
  | ok u =>
    exact absurd (by cases u; exact hic) (identityCheck_mismatch hmis)
  | error e =>
    refine ⟨e, ?_, identityCheck_err_kind hic⟩
    unfold ZatelConnection.merge_from
    rw [hn, hu]
    dsimp only
    rw [hic]

/-- C3: in the validate-then-save protocol, an unparseable client
document is rejected as InvalidArgument, and when the strict-merged
validation replies are not structurally equal to the parsed desired
document — structural equality being serde_yaml's order-insensitive
document equality, the `!=` the code performs — the request is rejected
as InvalidArgument; in both cases no `SaveConf` request is fanned out to
any plugin. -/
theorem save_conf_validation_rejects (connection : ZatelConnection)
    (gen_uuid : String) (vReplies sReplies : List ZatelIpcMessage) :
    (∀ raw, connection.config = .invalid raw →
      (handle_save_conf connection gen_uuid vReplies sReplies).result =
        .error (ZatelError.invalid_argument .invalidYamlFormat) ∧
      (handle_save_conf connection gen_uuid vReplies sReplies).sent = Option.none) ∧
    (∀ desire merged, connection.config = .parsed desire →
      merge_yaml_mappings (extract_strs_from_ipc_msg vReplies) = .ok merged →
      yamlBeq (Value.map merged) desire = false →
      (handle_save_conf connection gen_uuid vReplies sReplies).result =
        .error (ZatelError.invalid_argument (.invalidConfig (.map merged) desire)) ∧
      (handle_save_conf connection gen_uuid vReplies sReplies).sent = Option.none) := by
  constructor
  · intro raw hraw
    have hv : validate_conf connection.config vReplies =
        .error (ZatelError.invalid_argument .invalidYamlFormat) := by
      rw [hraw]; rfl
    constructor <;> simp [handle_save_conf, hv]
  · intro desire merged hconf hm hne
    have hv : validate_conf connection.config vReplies =
        .error (ZatelError.invalid_argument (.invalidConfig (.map merged) desire)) := by
      rw [hconf]
      unfold validate_conf
      rw [hm]
      simp [hne]
    constructor <;> simp [handle_save_conf, hv]

/-- Witness for the C3 theorem: a config that does not parse is rejected
as InvalidArgument with nothing sent, and a parsed config `{a: 1}` whose
validated merge is `{}` (no Apply plugin recognized anything) is rejected
as InvalidArgument with nothing sent. -/
theorem save_conf_validation_rejects_witness :
    ((handle_save_conf ⟨Option.none, Option.none, .invalid ":bad["⟩ "g" [] []).result =
        .error (ZatelError.invalid_argument .invalidYamlFormat) ∧
      (handle_save_conf ⟨Option.none, Option.none, .invalid ":bad["⟩ "g" [] []).sent =
        Option.none) ∧
    ((handle_save_conf
        ⟨Option.none, Option.none,
          .parsed (.map (.cons (.str "a") (.num 1) .nil))⟩ "g" [] []).result =
        .error (ZatelError.invalid_argument
          (.invalidConfig (.map .nil) (.map (.cons (.str "a") (.num 1) .nil)))) ∧
      (handle_save_conf
        ⟨Option.none, Option.none,
          .parsed (.map (.cons (.str "a") (.num 1) .nil))⟩ "g" [] []).sent =
        Option.none) :=
  ⟨(save_conf_validation_rejects ⟨Option.none, Option.none, .invalid ":bad["⟩
      "g" [] []).1 ":bad[" rfl,
   (save_conf_validation_rejects
      ⟨Option.none, Option.none,
        .parsed (.map (.cons (.str "a") (.num 1) .nil))⟩ "g" [] []).2
      (.map (.cons (.str "a") (.num 1) .nil)) .nil rfl (by decide) (by decide)⟩

theorem merge_from_ok_shape {self r : ZatelConnection}
    {cons : List ZatelConnection} (h : self.merge_from cons = .ok r) :
    ∃ M, merge_yaml_mappings (self.config :: cons.map (·.config)) = .ok M ∧
      r = { self with config := .parsed (.map M) } := by
  unfold ZatelConnection.merge_from at h
  cases hn : self.name with
  | none => rw [hn] at h; cases h
  | some sn =>
    rw [hn] at h
    dsimp only at h
    cases hu : self.uuid with
    | none => rw [hu] at h; cases h
    | some su =>
      rw [hu] at h
      dsimp only at h
      cases hic : identityCheck sn su cons with
      | error e => rw [hic] at h; cases h
      | ok u =>
        cases u
        rw [hic] at h
        dsimp only at h
        cases hm : merge_yaml_mappings (self.config :: cons.map (·.config)) with
        | error e => rw [hm] at h; cases h
        | ok mm =>
          rw [hm] at h
          cases h
          exact ⟨mm, rfl, rfl⟩

/-- C4: after a successful validation, zero successful `SaveConfReply`
fragments fail the whole save as PluginError; any reply fragment
reporting a uuid or name different from the assigned identity fails the
save as PluginError; and a successful save returns exactly the record
whose config is the strict merge of the assigned connection's config
with the returned fragments' config bodies. -/
theorem save_conf_fanout_spec (connection : ZatelConnection) (gen_uuid : String)
    (vReplies sReplies : List ZatelIpcMessage)
    (hv : validate_conf connection.config vReplies = .ok ()) :
    (save_reply_fragments sReplies = [] →
      (handle_save_conf connection gen_uuid vReplies sReplies).result =
        .error (ZatelError.plugin_error .noPluginSaved)) ∧
    ((∃ c ∈ save_reply_fragments sReplies,
        reports_different_identity (assign_identity connection gen_uuid) c) →
      ∃ e, (handle_save_conf connection gen_uuid vReplies sReplies).result =
        .error e ∧ e.kind = .pluginError) ∧
    (∀ m, (handle_save_conf connection gen_uuid vReplies sReplies).result =
        .ok m →
      ∃ M, merge_yaml_mappings
          ((assign_identity connection gen_uuid).config ::
            (save_reply_fragments sReplies).map (·.config)) = .ok M ∧
        m = ZatelIpcMessage.new (.saveConfReply
          { assign_identity connection gen_uuid with
              config := .parsed (.map M) })) := by
  refine ⟨?_, ?_, ?_⟩
  · intro h0
    simp [handle_save_conf, hv, h0]
  · intro hmis
    have hne : ¬ save_reply_fragments sReplies = [] := by
      obtain ⟨c, hc, _⟩ := hmis
      intro hE
      rw [hE] at hc
      cases hc
    obtain ⟨e, hmf, hk⟩ := merge_from_err_of_mismatch
      (assign_identity_name connection gen_uuid)
      (assign_identity_uuid connection gen_uuid) hmis
    refine ⟨e, ?_, hk⟩
    simp [handle_save_conf, hv, hne, hmf]
  · intro m hm
    unfold handle_save_conf at hm
    rw [hv] at hm
    dsimp only at hm
    by_cases hE : save_reply_fragments sReplies = []
    · rw [if_pos hE] at hm
      cases hm
    · rw [if_neg hE] at hm
      cases hmf : (assign_identity connection gen_uuid).merge_from
          (save_reply_fragments sReplies) with
      | error e => rw [hmf] at hm; cases hm
      | ok r =>
        rw [hmf] at hm
        dsimp only at hm
        cases hm
        obtain ⟨M, hM, hr⟩ := merge_from_ok_shape hmf
        exact ⟨M, hM, by rw [hr]⟩

/-- Witness for the C4 theorem: with a validated `{a: 1}` save, an empty
Config fan-out reply set is a PluginError, a fragment echoing uuid
"other" instead of the assigned "g" is a PluginError, and a successful
save returns the record carrying the strict merge of the assigned
connection's config with the fragment's config. -/
theorem save_conf_fanout_spec_witness :
    ((handle_save_conf
        ⟨Option.none, some "n", .parsed (.map (.cons (.str "a") (.num 1) .nil))⟩
        "g" [ZatelIpcMessage.new (.validateConfReply
          (.parsed (.map (.cons (.str "a") (.num 1) .nil))))] []).result =
      .error (ZatelError.plugin_error .noPluginSaved)) ∧
    (∃ e, (handle_save_conf
        ⟨Option.none, some "n", .parsed (.map (.cons (.str "a") (.num 1) .nil))⟩
        "g" [ZatelIpcMessage.new (.validateConfReply
          (.parsed (.map (.cons (.str "a") (.num 1) .nil))))]
        [ZatelIpcMessage.new (.saveConfReply ⟨some "other", some "n",
          .parsed (.map (.cons (.str "a") (.num 1) .nil))⟩)]).result =
      .error e ∧ e.kind = .pluginError) ∧
    (∃ M, merge_yaml_mappings
        ((assign_identity
            ⟨Option.none, some "n",
              .parsed (.map (.cons (.str "a") (.num 1) .nil))⟩ "g").config ::
          (save_reply_fragments
            [ZatelIpcMessage.new (.saveConfReply
              ⟨Option.none, Option.none,
                .parsed (.map (.cons (.str "a") (.num 1) .nil))⟩)]).map
            (·.config)) = .ok M ∧
      ZatelIpcMessage.new (.saveConfReply ⟨some "g", some "n",
        .parsed (.map (.cons (.str "a") (.num 1) .nil))⟩) =
      ZatelIpcMessage.new (.saveConfReply
        { assign_identity
            ⟨Option.none, some "n",
              .parsed (.map (.cons (.str "a") (.num 1) .nil))⟩ "g" with
            config := .parsed (.map M) })) :=
  ⟨(save_conf_fanout_spec _ "g" _ [] (by decide)).1 rfl,
   (save_conf_fanout_spec _ "g" _ _ (by decide)).2.1
     ⟨⟨some "other", some "n", .parsed (.map (.cons (.str "a") (.num 1) .nil))⟩,
      by decide,
      Or.inl ⟨"other", rfl, by decide⟩⟩,
   (save_conf_fanout_spec
       ⟨Option.none, some "n", .parsed (.map (.cons (.str "a") (.num 1) .nil))⟩
       "g"
       [ZatelIpcMessage.new (.validateConfReply
         (.parsed (.map (.cons (.str "a") (.num 1) .nil))))]
       [ZatelIpcMessage.new (.saveConfReply
         ⟨Option.none, Option.none,
           .parsed (.map (.cons (.str "a") (.num 1) .nil))⟩)]
       (by decide)).2.2
     (ZatelIpcMessage.new (.saveConfReply ⟨some "g", some "n",
       .parsed (.map (.cons (.str "a") (.num 1) .nil))⟩))
     (by decide)⟩

/-- C5 (counterexample): a client-supplied empty uuid is accepted and
returned as-is by a successful save, so the returned record's uuid is
present but empty. -/
theorem save_conf_empty_uuid_cex :
    ∃ r, (handle_save_conf
        ⟨some "", some "n", .parsed (.map (.cons (.str "a") (.num 1) .nil))⟩
        "g" [ZatelIpcMessage.new (.validateConfReply
          (.parsed (.map (.cons (.str "a") (.num 1) .nil))))]
        [ZatelIpcMessage.new (.saveConfReply ⟨some "", some "n",
          .parsed (.map (.cons (.str "a") (.num 1) .nil))⟩)]).result =
      .ok (ZatelIpcMessage.new (.saveConfReply r)) ∧ r.uuid = some "" :=
  ⟨⟨some "", some "n", .parsed (.map (.cons (.str "a") (.num 1) .nil))⟩,
   by decide, rfl⟩

/-- C5 (amended): every record returned by a successful save has its
uuid and name PRESENT (`some _`); when the client omitted them they are
the generated uuid and the derived name (so the uuid is then non-empty
whenever the UUID generator's output is), but a client-supplied empty
uuid or name is returned as-is. -/
theorem save_conf_identity_present (connection : ZatelConnection)
    (gen_uuid : String) (vReplies sReplies : List ZatelIpcMessage)
    (m : ZatelIpcMessage)
    (h : (handle_save_conf connection gen_uuid vReplies sReplies).result = .ok m) :
    ∃ record, m.data = .saveConfReply record ∧
      record.uuid.isSome ∧ record.name.isSome ∧
      (connection.uuid = Option.none → record.uuid = some gen_uuid) ∧
      (connection.name = Option.none →
        record.name = some (gen_connection_name connection.config)) := by
  unfold handle_save_conf at h
  cases hv : validate_conf connection.config vReplies with
  | error e =>
    rw [hv] at h
    cases h
  | ok u =>
    cases u
    rw [hv] at h
    dsimp only at h
    by_cases hE : save_reply_fragments sReplies = []
    · rw [if_pos hE] at h
      cases h
    · rw [if_neg hE] at h
      cases hmf : (assign_identity connection gen_uuid).merge_from
          (save_reply_fragments sReplies) with
      | error e =>
        rw [hmf] at h
        cases h
      | ok r =>
        rw [hmf] at h
        dsimp only at h
        cases h
        obtain ⟨hru, hrn⟩ := merge_from_ok_identity hmf
        refine ⟨r, rfl, ?_, ?_, ?_, ?_⟩
        · rw [hru, assign_identity_uuid]; rfl
        · rw [hrn, assign_identity_name]; rfl
        · intro hnone
          rw [hru, assign_identity_uuid, hnone]
          rfl
        · intro hnone
          rw [hrn, assign_identity_name, hnone]
          rfl

/-- Witness for the amended C5 theorem at a concrete successful save. -/
theorem save_conf_identity_present_witness :
    ∃ record, (ZatelIpcMessage.new (.saveConfReply
        ⟨some "g", some "unknown",
          .parsed (.map (.cons (.str "a") (.num 1) .nil))⟩)).data =
      .saveConfReply record ∧
      record.uuid.isSome ∧ record.name.isSome ∧
      ((⟨Option.none, Option.none,
          .parsed (.map (.cons (.str "a") (.num 1) .nil))⟩ :
            ZatelConnection).uuid = Option.none → record.uuid = some "g") ∧
      ((⟨Option.none, Option.none,
          .parsed (.map (.cons (.str "a") (.num 1) .nil))⟩ :
            ZatelConnection).name = Option.none →
        record.name = some (gen_connection_name
          (.parsed (.map (.cons (.str "a") (.num 1) .nil))))) :=
  save_conf_identity_present
    ⟨Option.none, Option.none, .parsed (.map (.cons (.str "a") (.num 1) .nil))⟩
    "g"
    [ZatelIpcMessage.new (.validateConfReply
      (.parsed (.map (.cons (.str "a") (.num 1) .nil))))]
    [ZatelIpcMessage.new (.saveConfReply ⟨Option.none, Option.none,
      .parsed (.map (.cons (.str "a") (.num 1) .nil))⟩)]
    (ZatelIpcMessage.new (.saveConfReply
      ⟨some "g", some "unknown",
        .parsed (.map (.cons (.str "a") (.num 1) .nil))⟩))
    (by decide)

theorem decString_enc (s : String) (r : List Nat) :
    decString (encString s ++ r) = some (s, r) := by
  show decString (s.data.length :: (s.data.map Char.toNat ++ r)) = some (s, r)
  rw [decString]
  rw [if_pos (by simp)]
  congr 1
  have hlen : s.data.length = (s.data.map Char.toNat).length := by simp
  have hcomp : Char.ofNat ∘ Char.toNat = id := funext fun c => Char.ofNat_toNat c
  rw [hlen, List.take_left, List.drop_left, List.map_map, hcomp, List.map_id]

theorem decOptWith_enc {α : Type} {f : α → List Nat}
    {g : List Nat → Option (α × List Nat)}
    (hg : ∀ a r, g (f a ++ r) = some (a, r)) :
    ∀ o r, decOptWith g (encOptWith f o ++ r) = some (o, r)
  | Option.none, r => by simp [encOptWith, decOptWith]
  | some a, r => by simp [encOptWith, decOptWith, hg]

theorem decOptString_enc (o : Option String) (r : List Nat) :
    decOptWith decString (encOptWith encString o ++ r) = some (o, r) :=
  decOptWith_enc decString_enc o r

theorem decListCount_enc {α : Type} {f : α → List Nat}
    {g : List Nat → Option (α × List Nat)}
    (hg : ∀ a r, g (f a ++ r) = some (a, r)) :
    ∀ (xs : List α) (r : List Nat),
      decListCount g xs.length ((xs.map f).flatten ++ r) = some (xs, r) := by
  intro xs
  induction xs with
  | nil => intro r; simp [decListCount]
  | cons a as ih =>
    intro r
    simp only [List.map_cons, List.flatten_cons, List.length_cons,
      List.append_assoc]
    rw [decListCount]
    simp only [hg, ih]

theorem decListWith_enc {α : Type} {f : α → List Nat}
    {g : List Nat → Option (α × List Nat)}
    (hg : ∀ a r, g (f a ++ r) = some (a, r)) (xs : List α) (r : List Nat) :
    decListWith g (encListWith f xs ++ r) = some (xs, r) := by
  show decListWith g (xs.length :: ((xs.map f).flatten ++ r)) = some (xs, r)
  rw [decListWith, decListCount_enc hg]

theorem decInt_enc (n : Int) (r : List Nat) :
    decInt (encInt n ++ r) = some (n, r) := by
  cases n <;> simp [encInt, decInt]

theorem dec_enc_value_all : ∀ fuel : Nat,
    (∀ v r, (encValue v).length ≤ fuel →
      decValue fuel (encValue v ++ r) = some (v, r)) ∧
    (∀ xs r, (encValueSeq xs).length ≤ fuel →
      decValueSeq fuel (encValueSeq xs ++ r) = some (xs, r)) ∧
    (∀ kvs r, (encValueMap kvs).length ≤ fuel →
      decValueMap fuel (encValueMap kvs ++ r) = some (kvs, r)) := by
  intro fuel
  induction fuel with
  | zero =>
    refine ⟨?_, ?_, ?_⟩ <;> intro x r h <;>
      exact absurd h
        (by cases x <;> simp [encValue, encValueSeq, encValueMap])
  | succ n ih =>
    obtain ⟨ihv, ihs, ihm⟩ := ih
    refine ⟨?_, ?_, ?_⟩
    · intro v r h
      cases v with
      | null => simp [encValue, decValue]
      | bool b => cases b <;> simp [encValue, decValue]
      | num k => simp [encValue, decValue, decInt_enc]
      | str s => simp [encValue, decValue, decString_enc]
      | seq xs =>
        have hlen : (encValueSeq xs).length ≤ n := by
          simpa [encValue] using h
        simp [encValue, decValue, ihs xs r hlen]
      | map kvs =>
        have hlen : (encValueMap kvs).length ≤ n := by
          simpa [encValue] using h
        simp [encValue, decValue, ihm kvs r hlen]
    · intro xs r h
      cases xs with
      | nil => simp [encValueSeq, decValueSeq]
      | cons v tl =>
        have h1 : (encValue v).length ≤ n := by
          simp [encValueSeq] at h; omega
        have h2 : (encValueSeq tl).length ≤ n := by
          simp [encValueSeq] at h; omega
        show decValueSeq (n + 1)
            (1 :: ((encValue v ++ encValueSeq tl) ++ r)) = some (.cons v tl, r)
        rw [List.append_assoc, decValueSeq]
        simp only [ihv v _ h1, ihs tl r h2]
    · intro kvs r h
      cases kvs with
      | nil => simp [encValueMap, decValueMap]
      | cons k v tl =>
        have h1 : (encValue k).length ≤ n := by
          simp [encValueMap] at h; omega
        have h2 : (encValue v).length ≤ n := by
          simp [encValueMap] at h; omega
        have h3 : (encValueMap tl).length ≤ n := by
          simp [encValueMap] at h; omega
        show decValueMap (n + 1)
            (1 :: ((encValue k ++ encValue v ++ encValueMap tl) ++ r)) =
          some (.cons k v tl, r)
        rw [List.append_assoc, List.append_assoc, decValueMap]
        simp only [ihv k _ h1, ihv v _ h2, ihm tl r h3]

theorem decValue_enc (v : Value) (r : List Nat) :
    decValue (encValue v ++ r).length (encValue v ++ r) = some (v, r) :=
  (dec_enc_value_all _).1 v r (by simp)

theorem decYaml_enc (y : Yaml) (r : List Nat) :
    decYaml (encYaml y ++ r) = some (y, r) := by
  cases y with
  | invalid raw => simp [encYaml, decYaml, decString_enc]
  | parsed v =>
    show decYaml (1 :: (encValue v ++ r)) = some (.parsed v, r)
    rw [decYaml]
    simp only [decValue_enc]

theorem decErrorKind_enc (k : ErrorKind) (r : List Nat) :
    decErrorKind (encErrorKind k ++ r) = some (k, r) := by
  cases k <;> simp [encErrorKind, decErrorKind]

set_option maxHeartbeats 2000000 in
theorem decErrMsg_enc (m : ErrMsg) (r : List Nat) :
    decErrMsg (encErrMsg m ++ r) = some (m, r) := by
  cases m <;>
    simp only [encErrMsg, decErrMsg, List.cons_append, List.nil_append,
      List.append_assoc, decString_enc, decOptString_enc, decValue_enc]

theorem decZatelError_enc (e : ZatelError) (r : List Nat) :
    decZatelError (encZatelError e ++ r) = some (e, r) := by
  simp [encZatelError, decZatelError, List.append_assoc, decErrorKind_enc,
    decErrMsg_enc]

theorem decCapacity_enc (c : ZatelPluginCapacity) (r : List Nat) :
    decCapacity (encCapacity c ++ r) = some (c, r) := by
  cases c <;> simp [encCapacity, decCapacity]

theorem decPluginInfo_enc (p : ZatelPluginInfo) (r : List Nat) :
    decPluginInfo (encPluginInfo p ++ r) = some (p, r) := by
  simp [encPluginInfo, decPluginInfo, List.append_assoc, decString_enc,
    decListWith_enc decCapacity_enc]

theorem decLogLevel_enc (l : ZatelLogLevel) (r : List Nat) :
    decLogLevel (encLogLevel l ++ r) = some (l, r) := by
  cases l <;> simp [encLogLevel, decLogLevel]

theorem decLogEntry_enc (e : ZatelLogEntry) (r : List Nat) :
    decLogEntry (encLogEntry e ++ r) = some (e, r) := by
  simp [encLogEntry, decLogEntry, List.append_assoc, decLogLevel_enc,
    decString_enc]

theorem decConnection_enc (c : ZatelConnection) (r : List Nat) :
    decConnection (encConnection c ++ r) = some (c, r) := by
  simp [encConnection, decConnection, List.append_assoc, decOptString_enc,
    decYaml_enc]

set_option maxHeartbeats 2000000 in
theorem decIpcData_enc (d : ZatelIpcData) (r : List Nat) :
    decIpcData (encIpcData d ++ r) = some (d, r) := by
  cases d <;>
    simp [encIpcData, decIpcData, List.append_assoc, decZatelError_enc,
      decPluginInfo_enc, decYaml_enc, decConnection_enc, decString_enc,
      decListWith_enc decConnection_enc]

theorem decIpcMessage_enc (m : ZatelIpcMessage) (r : List Nat) :
    decIpcMessage (encIpcMessage m ++ r) = some (m, r) := by
  simp [encIpcMessage, decIpcMessage, List.append_assoc, decIpcData_enc,
    decOptWith_enc (decListWith_enc decLogEntry_enc)]

theorem decode_message_enc (m : ZatelIpcMessage) :
    decode_message (encIpcMessage m) = some m := by
  unfold decode_message
  have h := decIpcMessage_enc m []
  rw [List.append_nil] at h
  rw [h]

theorem encIpcData_pos (d : ZatelIpcData) : 0 < (encIpcData d).length := by
  cases d <;> simp [encIpcData]

theorem encIpcMessage_pos (m : ZatelIpcMessage) :
    0 < (encIpcMessage m).length := by
  have h := encIpcData_pos m.data
  simp only [encIpcMessage, List.length_append]
  omega

theorem readBytes_insufficient {bs : List Nat} {fin : StreamEnd} {n : Nat}
    (h : bs.length < n) :
    readBytes ⟨bs, fin⟩ n =
      (match fin with
       | .eof => .error .unexpectedEof
       | .ioErr code => .error (.other code)) := by
  unfold readBytes
  rw [if_neg (by simp; omega)]

theorem recv_get_size_short_eof {bs : List Nat} (h : bs.length < 4) :
    ipc_recv_get_size ⟨bs, .eof⟩ = .ok (0, ⟨bs, .eof⟩) := by
  unfold ipc_recv_get_size
  rw [readBytes_insufficient h]

theorem recv_get_size_short_io {bs : List Nat} {k : Nat}
    (h : bs.length < 4) :
    ipc_recv_get_size ⟨bs, .ioErr k⟩ =
      .error (ZatelError.bug .readSizeFailed) := by
  unfold ipc_recv_get_size
  rw [readBytes_insufficient h]

theorem recv_get_size_cons (b0 b1 b2 b3 : Nat) (body : List Nat)
    (fin : StreamEnd) :
    ipc_recv_get_size ⟨[b0, b1, b2, b3] ++ body, fin⟩ =
      .ok (u32beVal b0 b1 b2 b3, ⟨body, fin⟩) := by
  unfold ipc_recv_get_size readBytes
  rw [if_pos (by simp)]
  simp

theorem recv_get_size_u32 (n : Nat) (h : n < 4294967296) (rest : List Nat)
    (fin : StreamEnd) :
    ipc_recv_get_size ⟨u32be n ++ rest, fin⟩ = .ok (n, ⟨rest, fin⟩) := by
  show ipc_recv_get_size
      ⟨[n / 16777216 % 256, n / 65536 % 256, n / 256 % 256, n % 256] ++ rest,
        fin⟩ = .ok (n, ⟨rest, fin⟩)
  rw [recv_get_size_cons]
  congr 1
  congr 1
  unfold u32beVal
  omega

theorem recv_send_core (m : ZatelIpcMessage) (rest : List Nat)
    (fin : StreamEnd) (hlen : (encIpcMessage m).length < 4294967296) :
    ipc_recv ⟨ipc_send m ++ rest, fin⟩ =
      (match m.data with
       | .error e => .error e
       | _ => .ok (m, ⟨rest, fin⟩)) := by
  unfold ipc_send
  rw [Nat.mod_eq_of_lt hlen, List.append_assoc]
  unfold ipc_recv
  rw [recv_get_size_u32 _ hlen _ fin]
  dsimp only
  rw [if_neg (by have := encIpcMessage_pos m; omega)]
  unfold ipc_recv_get_data
  have hb : readBytes ⟨encIpcMessage m ++ rest, fin⟩ (encIpcMessage m).length =
      .ok (encIpcMessage m, ⟨rest, fin⟩) := by
    unfold readBytes
    rw [if_pos (by simp)]
    rw [List.take_left, List.drop_left]
  rw [hb]
  dsimp only
  rw [decode_message_enc]

/-- C6 (counterexample): a Message whose payload is the Error variant
does not round-trip to a successful equal Message — receive surfaces it
as a failed Result. -/
theorem ipc_roundtrip_error_cex :
    ipc_recv ⟨ipc_send (ZatelIpcMessage.new
        (.error ⟨.pluginError, .noPluginSaved⟩)), .eof⟩
      = .error ⟨.pluginError, .noPluginSaved⟩ := by
  decide

/-- C6 (amended): for every payload variant EXCEPT the Error variant,
sending a Message with the transport codec and decoding it with receive
yields a successful result equal to the original (for any encodable
frame, i.e. an encoding shorter than the u32 prefix bound); the Error
variant is instead surfaced as a failed Result. -/
theorem ipc_roundtrip (m : ZatelIpcMessage) (rest : List Nat)
    (fin : StreamEnd) (hlen : (encIpcMessage m).length < 4294967296)
    (herr : ∀ e, m.data ≠ .error e) :
    ipc_recv ⟨ipc_send m ++ rest, fin⟩ = .ok (m, ⟨rest, fin⟩) := by
  rw [recv_send_core m rest fin hlen]
  cases hd : m.data <;> first | exact absurd hd (herr _) | rfl

/-- Witness for the amended C6 theorem on a concrete non-Error message. -/
theorem ipc_roundtrip_witness :
    ipc_recv ⟨ipc_send (ZatelIpcMessage.new .queryPluginInfo) ++ [9], .eof⟩
      = .ok (ZatelIpcMessage.new .queryPluginInfo, ⟨[9], .eof⟩) :=
  ipc_roundtrip (ZatelIpcMessage.new .queryPluginInfo) [9] .eof (by decide)
    (fun _ h => nomatch h)

/-- C7: a received reply whose payload variant is the Error variant is
returned by receive as a failed Result carrying that error, never as a
successful Message; every other variant is returned as a successful
Message. -/
theorem recv_error_variant_spec (m : ZatelIpcMessage) (rest : List Nat)
    (fin : StreamEnd) (hlen : (encIpcMessage m).length < 4294967296) :
    (∀ e, m.data = .error e → ipc_recv ⟨ipc_send m ++ rest, fin⟩ = .error e) ∧
    ((∀ e, m.data ≠ .error e) →
      ipc_recv ⟨ipc_send m ++ rest, fin⟩ = .ok (m, ⟨rest, fin⟩)) := by
  constructor
  · intro e he
    rw [recv_send_core m rest fin hlen, he]
  · intro herr
    rw [recv_send_core m rest fin hlen]
    cases hd : m.data <;> first | exact absurd hd (herr _) | rfl

/-- Witness for the C7 theorem: an Error-variant reply comes back as a
failed Result, a QueryPluginInfo reply as a successful Message. -/
theorem recv_error_variant_spec_witness :
    ipc_recv ⟨ipc_send (ZatelIpcMessage.new
        (.error ⟨.invalidArgument, .noDataStr⟩)) ++ [], .eof⟩
      = .error ⟨.invalidArgument, .noDataStr⟩ ∧
    ipc_recv ⟨ipc_send (ZatelIpcMessage.new .querySavedConfAll) ++ [], .eof⟩
      = .ok (ZatelIpcMessage.new .querySavedConfAll, ⟨[], .eof⟩) :=
  ⟨(recv_error_variant_spec (ZatelIpcMessage.new
      (.error ⟨.invalidArgument, .noDataStr⟩)) [] .eof (by decide)).1
      ⟨.invalidArgument, .noDataStr⟩ rfl,
   (recv_error_variant_spec (ZatelIpcMessage.new .querySavedConfAll)
      [] .eof (by decide)).2 (fun _ h => nomatch h)⟩

/-- C8 (counterexample): an end-of-stream in the middle of the body (a
declared length of 5 with only 2 body bytes before EOF) is an I/O
failure other than "0 bytes read for the length", yet receive returns
the ConnectionClosed message successfully instead of an error. -/
theorem recv_truncated_body_cex :
    ipc_recv ⟨[0, 0, 0, 5, 1, 2], .eof⟩ =
      .ok (ZatelIpcMessage.new .connectionClosed, ⟨[1, 2], .eof⟩) := by
  decide

/-- C8 (amended): end-of-stream before any byte of the length prefix
yields the ConnectionClosed condition as a successful result; moreover
EVERY unexpected end-of-stream — a partial length prefix or a truncated
body — also yields ConnectionClosed rather than an error; only non-EOF
I/O failures while reading the length or the body yield an error (of
Bug kind). -/
theorem recv_eof_closed_spec (bs : List Nat) (k b0 b1 b2 b3 : Nat)
    (body : List Nat) :
    (ipc_recv ⟨[], .eof⟩ =
      .ok (ZatelIpcMessage.new .connectionClosed, ⟨[], .eof⟩)) ∧
    (bs.length < 4 → ipc_recv ⟨bs, .eof⟩ =
      .ok (ZatelIpcMessage.new .connectionClosed, ⟨bs, .eof⟩)) ∧
    (bs.length < 4 → ∃ e, ipc_recv ⟨bs, .ioErr k⟩ = .error e ∧
      e.kind = .zatelBug) ∧
    (u32beVal b0 b1 b2 b3 ≠ 0 → body.length < u32beVal b0 b1 b2 b3 →
      ipc_recv ⟨[b0, b1, b2, b3] ++ body, .eof⟩ =
        .ok (ZatelIpcMessage.new .connectionClosed, ⟨body, .eof⟩)) ∧
    (u32beVal b0 b1 b2 b3 ≠ 0 → body.length < u32beVal b0 b1 b2 b3 →
      ∃ e, ipc_recv ⟨[b0, b1, b2, b3] ++ body, .ioErr k⟩ = .error e ∧
        e.kind = .zatelBug) := by
  refine ⟨by decide, ?_, ?_, ?_, ?_⟩
  · intro h
    unfold ipc_recv
    rw [recv_get_size_short_eof h]
    rfl
  · intro h
    unfold ipc_recv
    rw [recv_get_size_short_io h]
    exact ⟨_, rfl, rfl⟩
  · intro hne hlt
    unfold ipc_recv
    rw [recv_get_size_cons]
    dsimp only
    rw [if_neg hne]
    unfold ipc_recv_get_data
    rw [readBytes_insufficient hlt]
  · intro hne hlt
    unfold ipc_recv
    rw [recv_get_size_cons]
    dsimp only
    rw [if_neg hne]
    unfold ipc_recv_get_data
    rw [readBytes_insufficient hlt]
    exact ⟨_, rfl, rfl⟩

/-- Witness for the amended C8 theorem at concrete streams. -/
theorem recv_eof_closed_spec_witness :
    (ipc_recv ⟨[], .eof⟩ =
      .ok (ZatelIpcMessage.new .connectionClosed, ⟨[], .eof⟩)) ∧
    (ipc_recv ⟨[7], .eof⟩ =
      .ok (ZatelIpcMessage.new .connectionClosed, ⟨[7], .eof⟩)) ∧
    (∃ e, ipc_recv ⟨[7], .ioErr 3⟩ = .error e ∧ e.kind = .zatelBug) ∧
    (ipc_recv ⟨[0, 0, 0, 5] ++ [1, 2], .eof⟩ =
      .ok (ZatelIpcMessage.new .connectionClosed, ⟨[1, 2], .eof⟩)) ∧
    (∃ e, ipc_recv ⟨[0, 0, 0, 5] ++ [1, 2], .ioErr 3⟩ = .error e ∧
      e.kind = .zatelBug) :=
  ⟨(recv_eof_closed_spec [7] 3 0 0 0 5 [1, 2]).1,
   (recv_eof_closed_spec [7] 3 0 0 0 5 [1, 2]).2.1 (by decide),
   (recv_eof_closed_spec [7] 3 0 0 0 5 [1, 2]).2.2.1 (by decide),
   (recv_eof_closed_spec [7] 3 0 0 0 5 [1, 2]).2.2.2.1 (by decide) (by decide),
   (recv_eof_closed_spec [7] 3 0 0 0 5 [1, 2]).2.2.2.2 (by decide) (by decide)⟩

/-- C9: the bounded receive rejects any advertised length above the
10 MiB ceiling as InvalidArgument without reading the body (the result
does not depend on the body bytes or on how the stream ends), and on any
stream whose advertised length is at or below the ceiling it behaves
identically to the unbounded receive. -/
theorem recv_safe_spec (b0 b1 b2 b3 : Nat) (body : List Nat)
    (fin : StreamEnd) (s : IpcStream) :
    (IPC_SAFE_SIZE < u32beVal b0 b1 b2 b3 →
      ipc_recv_safe ⟨[b0, b1, b2, b3] ++ body, fin⟩ =
        .error (ZatelError.invalid_argument (.sizeExceedLimit IPC_SAFE_SIZE))) ∧
    ((∀ n s', ipc_recv_get_size s = .ok (n, s') → n ≤ IPC_SAFE_SIZE) →
      ipc_recv_safe s = ipc_recv s) := by
  constructor
  · intro hgt
    unfold ipc_recv_safe
    rw [recv_get_size_cons]
    dsimp only
    rw [if_neg (by unfold IPC_SAFE_SIZE at hgt; omega), if_pos hgt]
  · intro hbound
    unfold ipc_recv_safe ipc_recv
    cases hsz : ipc_recv_get_size s with
    | error e => rfl
    | ok p =>
      obtain ⟨n, s'⟩ := p
      dsimp only
      by_cases h0 : n = 0
      · rw [if_pos h0, if_pos h0]
      · rw [if_neg h0, if_neg h0,
          if_neg (not_lt.mpr (hbound n s' hsz))]

/-- Witness for the C9 theorem: an advertised length of 16777217 bytes
is rejected without touching the body, and on a zero-length frame the
bounded and unbounded receives agree. -/
theorem recv_safe_spec_witness :
    ipc_recv_safe ⟨[1, 0, 0, 1] ++ [1, 2, 3], .eof⟩ =
      .error (ZatelError.invalid_argument (.sizeExceedLimit IPC_SAFE_SIZE)) ∧
    ipc_recv_safe ⟨[0, 0, 0, 0], .eof⟩ = ipc_recv ⟨[0, 0, 0, 0], .eof⟩ :=
  ⟨(recv_safe_spec 1 0 0 1 [1, 2, 3] .eof ⟨[0, 0, 0, 0], .eof⟩).1 (by decide),
   (recv_safe_spec 1 0 0 1 [1, 2, 3] .eof ⟨[0, 0, 0, 0], .eof⟩).2 (by
      intro n s' h
      rw [show ipc_recv_get_size ⟨[0, 0, 0, 0], .eof⟩ =
        .ok (0, (⟨[], .eof⟩ : IpcStream)) from by decide] at h
      cases h
      decide)⟩

/-- C10 (implicit): a frame whose 4-byte length prefix decodes to 0
makes both receives return the ConnectionClosed condition without
reading a body, indistinguishable from the peer closing the connection
before sending anything; a legitimately framed zero-length message can
never be delivered. -/
theorem recv_zero_length_spec (rest : List Nat) (fin : StreamEnd) :
    ipc_recv ⟨[0, 0, 0, 0] ++ rest, fin⟩ =
      .ok (ZatelIpcMessage.new .connectionClosed, ⟨rest, fin⟩) ∧
    ipc_recv_safe ⟨[0, 0, 0, 0] ++ rest, fin⟩ =
      .ok (ZatelIpcMessage.new .connectionClosed, ⟨rest, fin⟩) ∧
    (ipc_recv ⟨[0, 0, 0, 0] ++ rest, fin⟩).map Prod.fst =
      (ipc_recv ⟨[], .eof⟩).map Prod.fst := by
  have h1 : ipc_recv ⟨[0, 0, 0, 0] ++ rest, fin⟩ =
      .ok (ZatelIpcMessage.new .connectionClosed, ⟨rest, fin⟩) := by
    unfold ipc_recv
    rw [recv_get_size_cons]
    dsimp only
    rw [if_pos (by unfold u32beVal; omega)]
  have h2 : ipc_recv_safe ⟨[0, 0, 0, 0] ++ rest, fin⟩ =
      .ok (ZatelIpcMessage.new .connectionClosed, ⟨rest, fin⟩) := by
    unfold ipc_recv_safe
    rw [recv_get_size_cons]
    dsimp only
    rw [if_pos (by unfold u32beVal; omega)]
  exact ⟨h1, h2, by rw [h1]; rfl⟩

end Zatel
